import Mathlib

/-!
Verification of the combat-simulation core of the arcane-survivors game.

The JavaScript source is shallowly embedded: world coordinates and stats are
modelled as rationals (the source uses IEEE doubles; none of the verified
properties depend on rounding), entity collections as lists, and `Set`s of
already-hit enemy ids as lists of naturals.  Where the source computes a
Euclidean length with Math.sqrt, either the comparison is translated to its
exact squared equivalent, or the length is passed as an explicit argument
constrained by the hypothesis `dist * dist = dx^2 + dy^2` (a rational square
root does not exist in general).
-/

namespace ArcaneSurvivors

/-- Enemy record, following the object literal built by
`EnemyManager.spawnEnemy` (src/unnamed/part_016): position, collision
radius, hit points, removal flag, knockback accumulator and resistance,
and the one-time resurrect bookkeeping.  Fields that are purely visual
(sprite, animation clock) are omitted. -/
structure Enemy where
  id : ℕ
  x : ℚ
  y : ℚ
  radius : ℚ
  hp : ℚ
  maxHp : ℚ
  dead : Bool
  knockbackResist : ℚ
  knockbackX : ℚ
  knockbackY : ℚ
  resurrect : Bool
  resurrected : Bool
  deriving Repr, DecidableEq

/-- Spatial-hash cell size; `this.cellSize = 100` in the enemy manager. -/
def cellSize : ℚ := 100

/-- Cell key of a world position: `floor(x/cellSize), floor(y/cellSize)`,
as computed by `addToSpatialHash`. -/
def cellKey (x y : ℚ) : ℤ × ℤ := (⌊x / cellSize⌋, ⌊y / cellSize⌋)

/-- The spatial hash built by calling `addToSpatialHash` on every enemy of
the list: each bucket holds, in list order, the enemies whose position keys
to that cell. -/
def buildSpatialHash (enemies : List Enemy) : ℤ × ℤ → List Enemy :=
  fun k => enemies.filter (fun e => cellKey e.x e.y = k)

/-- Closed integer interval `[lo, hi]` as a list, used to mirror the
`for (let d = -cellRadius; d <= cellRadius; d++)` loops. -/
def intRange (lo hi : ℤ) : List ℤ :=
  (List.range (hi - lo + 1).toNat).map (fun (i : ℕ) => lo + (i : ℤ))

/-- `EnemyManager.getEnemiesNear(x, y, radius)`: scan the square ring of
`ceil(radius/cellSize)` cells around the query cell and keep the enemies
that are not dead and whose center is within `radius` (exact squared
comparison `ex*ex + ey*ey <= radius*radius`). -/
def getEnemiesNear (hash : ℤ × ℤ → List Enemy) (x y radius : ℚ) : List Enemy :=
  let cellRadius : ℤ := ⌈radius / cellSize⌉
  let centerCellX : ℤ := ⌊x / cellSize⌋
  let centerCellY : ℤ := ⌊y / cellSize⌋
  ((intRange (-cellRadius) cellRadius).map (fun dx =>
    ((intRange (-cellRadius) cellRadius).map (fun dy =>
      (hash (centerCellX + dx, centerCellY + dy)).filter (fun (e : Enemy) =>
        !e.dead && decide ((e.x - x) * (e.x - x) + (e.y - y) * (e.y - y) ≤ radius * radius)))).flatten)).flatten

lemma mem_intRange {lo hi a : ℤ} : a ∈ intRange lo hi ↔ lo ≤ a ∧ a ≤ hi := by
  unfold intRange
  rw [List.mem_map]
  constructor
  · rintro ⟨i, hi2, rfl⟩
    rw [List.mem_range] at hi2
    omega
  · intro h
    refine ⟨(a - lo).toNat, ?_, ?_⟩
    · rw [List.mem_range]
      omega
    · omega

lemma mem_buildSpatialHash {enemies : List Enemy} {k : ℤ × ℤ} {e : Enemy} :
    e ∈ buildSpatialHash enemies k ↔ e ∈ enemies ∧ cellKey e.x e.y = k := by
  simp [buildSpatialHash, List.mem_filter]

lemma floor_add_le (a b : ℚ) : ⌊a + b⌋ ≤ ⌊a⌋ + ⌈b⌉ := by
  calc ⌊a + b⌋ ≤ ⌊a + (⌈b⌉ : ℚ)⌋ := Int.floor_le_floor (by linarith [Int.le_ceil b])
    _ = ⌊a⌋ + ⌈b⌉ := Int.floor_add_int a ⌈b⌉

lemma le_floor_sub (a b : ℚ) : ⌊a⌋ - ⌈b⌉ ≤ ⌊a - b⌋ := by
  calc ⌊a⌋ - ⌈b⌉ = ⌊a - (⌈b⌉ : ℚ)⌋ := (Int.floor_sub_int a ⌈b⌉).symm
    _ ≤ ⌊a - b⌋ := Int.floor_le_floor (by linarith [Int.le_ceil b])

/-- Membership characterization of `getEnemiesNear`: given a hash that holds
exactly the listed enemies under the cell key of their current position, the
query returns exactly the live enemies within the radius. -/
lemma mem_getEnemiesNear {hash : ℤ × ℤ → List Enemy} {enemies : List Enemy}
    (hhash : ∀ k e, e ∈ hash k ↔ e ∈ enemies ∧ cellKey e.x e.y = k)
    {x y radius : ℚ} (hr : 0 ≤ radius) (e : Enemy) :
    e ∈ getEnemiesNear hash x y radius ↔
      e ∈ enemies ∧ e.dead = false ∧
        (e.x - x) * (e.x - x) + (e.y - y) * (e.y - y) ≤ radius * radius := by
  have hcs : (0 : ℚ) < cellSize := by norm_num [cellSize]
  simp only [getEnemiesNear]
  rw [show ∀ L : List (List Enemy), (e ∈ L.flatten ↔ ∃ l ∈ L, e ∈ l) from fun L => List.mem_flatten]
  simp only [List.mem_map, List.mem_flatten, List.mem_filter, Bool.and_eq_true,
    Bool.not_eq_true', decide_eq_true_eq]
  constructor
  · rintro ⟨row, ⟨dx, -, rfl⟩, hrow⟩
    rcases List.mem_flatten.mp hrow with ⟨bucket, hbucket, hemem⟩
    rcases List.mem_map.mp hbucket with ⟨dy, -, rfl⟩
    rcases List.mem_filter.mp hemem with ⟨hhit, hcond⟩
    rcases (hhash _ e).mp hhit with ⟨hmem, -⟩
    simp only [Bool.and_eq_true, Bool.not_eq_true', decide_eq_true_eq] at hcond
    exact ⟨hmem, hcond.1, hcond.2⟩
  · rintro ⟨hmem, hdead, hdist⟩
    have hx : |e.x - x| ≤ radius := by
      rw [abs_le]
      constructor <;> nlinarith [sq_nonneg (e.y - y), sq_nonneg (e.x - x)]
    have hy : |e.y - y| ≤ radius := by
      rw [abs_le]
      constructor <;> nlinarith [sq_nonneg (e.y - y), sq_nonneg (e.x - x)]
    rw [abs_le] at hx hy
    have hdivx₁ : e.x / cellSize ≤ (x + radius) / cellSize :=
      (div_le_div_iff_of_pos_right hcs).mpr (by linarith [hx.2])
    have hdivx₂ : (x - radius) / cellSize ≤ e.x / cellSize :=
      (div_le_div_iff_of_pos_right hcs).mpr (by linarith [hx.1])
    have hdivy₁ : e.y / cellSize ≤ (y + radius) / cellSize :=
      (div_le_div_iff_of_pos_right hcs).mpr (by linarith [hy.2])
    have hdivy₂ : (y - radius) / cellSize ≤ e.y / cellSize :=
      (div_le_div_iff_of_pos_right hcs).mpr (by linarith [hy.1])
    rw [add_div] at hdivx₁ hdivy₁
    rw [sub_div] at hdivx₂ hdivy₂
    have hbx₁ : ⌊e.x / cellSize⌋ ≤ ⌊x / cellSize⌋ + ⌈radius / cellSize⌉ :=
      le_trans (Int.floor_le_floor hdivx₁) (floor_add_le _ _)
    have hbx₂ : ⌊x / cellSize⌋ - ⌈radius / cellSize⌉ ≤ ⌊e.x / cellSize⌋ :=
      le_trans (le_floor_sub _ _) (Int.floor_le_floor hdivx₂)
    have hby₁ : ⌊e.y / cellSize⌋ ≤ ⌊y / cellSize⌋ + ⌈radius / cellSize⌉ :=
      le_trans (Int.floor_le_floor hdivy₁) (floor_add_le _ _)
    have hby₂ : ⌊y / cellSize⌋ - ⌈radius / cellSize⌉ ≤ ⌊e.y / cellSize⌋ :=
      le_trans (le_floor_sub _ _) (Int.floor_le_floor hdivy₂)
    refine ⟨_, ⟨⌊e.x / cellSize⌋ - ⌊x / cellSize⌋, mem_intRange.mpr ⟨by omega, by omega⟩, rfl⟩, ?_⟩
    refine List.mem_flatten.mpr ⟨_, List.mem_map.mpr
      ⟨⌊e.y / cellSize⌋ - ⌊y / cellSize⌋, mem_intRange.mpr ⟨by omega, by omega⟩, rfl⟩, ?_⟩
    refine List.mem_filter.mpr ⟨(hhash _ e).mpr ⟨hmem, ?_⟩, ?_⟩
    · simp only [cellKey, Prod.mk.injEq]
      omega
    · simp only [Bool.and_eq_true, Bool.not_eq_true', decide_eq_true_eq]
      exact ⟨hdead, hdist⟩

/-- Claim C3: provided the spatial hash holds every enemy under the cell key
of its current position, `getEnemiesNear(x, y, r)` returns exactly the set of
enemies not flagged dead whose center lies within distance `r` of `(x, y)`:
the `ceil(r/cellSize)` cell ring plus the exact squared-distance filter yields
no false negatives, and no dead or out-of-radius enemy is ever returned. -/
theorem getEnemiesNear_exact {hash : ℤ × ℤ → List Enemy} {enemies : List Enemy}
    (hhash : ∀ k e, e ∈ hash k ↔ e ∈ enemies ∧ cellKey e.x e.y = k)
    (x y radius : ℚ) (hr : 0 ≤ radius) (e : Enemy) :
    e ∈ getEnemiesNear hash x y radius ↔
      e ∈ enemies ∧ e.dead = false ∧
        (e.x - x) * (e.x - x) + (e.y - y) * (e.y - y) ≤ radius * radius :=
  mem_getEnemiesNear hhash hr e

/-- Sample enemy inside the query circle used by the C3 witness. -/
def enemyInside : Enemy :=
  { id := 1, x := 60, y := 80, radius := 10, hp := 50, maxHp := 50, dead := false,
    knockbackResist := 0, knockbackX := 0, knockbackY := 0,
    resurrect := false, resurrected := false }

/-- Sample enemy outside the query circle used by the C3 witness. -/
def enemyOutside : Enemy :=
  { id := 2, x := 500, y := 0, radius := 10, hp := 50, maxHp := 50, dead := false,
    knockbackResist := 0, knockbackX := 0, knockbackY := 0,
    resurrect := false, resurrected := false }

/-- Sample dead enemy used by the C3 witness. -/
def enemyFlaggedDead : Enemy :=
  { id := 3, x := 5, y := 5, radius := 10, hp := 0, maxHp := 50, dead := true,
    knockbackResist := 0, knockbackX := 0, knockbackY := 0,
    resurrect := false, resurrected := false }

/-- Witness for C3: on a concrete population, the live in-radius enemy is
returned and the dead and out-of-radius enemies are not. -/
theorem getEnemiesNear_exact_witness :
    enemyInside ∈ getEnemiesNear
        (buildSpatialHash [enemyInside, enemyOutside, enemyFlaggedDead]) 0 0 100 ∧
      enemyOutside ∉ getEnemiesNear
        (buildSpatialHash [enemyInside, enemyOutside, enemyFlaggedDead]) 0 0 100 ∧
      enemyFlaggedDead ∉ getEnemiesNear
        (buildSpatialHash [enemyInside, enemyOutside, enemyFlaggedDead]) 0 0 100 := by
  have hhash : ∀ k e, e ∈ buildSpatialHash [enemyInside, enemyOutside, enemyFlaggedDead] k ↔
      e ∈ [enemyInside, enemyOutside, enemyFlaggedDead] ∧ cellKey e.x e.y = k :=
    fun k e => mem_buildSpatialHash
  refine ⟨?_, ?_, ?_⟩
  · exact (getEnemiesNear_exact hhash 0 0 100 (by norm_num) enemyInside).mpr
      ⟨by simp, rfl, by norm_num [enemyInside]⟩
  · intro hmem
    have h := ((getEnemiesNear_exact hhash 0 0 100 (by norm_num) enemyOutside).mp hmem).2.2
    norm_num [enemyOutside] at h
  · intro hmem
    have h := ((getEnemiesNear_exact hhash 0 0 100 (by norm_num) enemyFlaggedDead).mp hmem).2.1
    norm_num [enemyFlaggedDead] at h

/-- One entry of a weapon's per-level upgrade table (src/unnamed/part_012).
A field the entry does not mention is modelled as `0`, matching the JS
falsiness guard `if (upgrade.field)` which skips absent or zero fields. -/
structure WeaponUpgrade where
  damage : ℚ := 0
  cooldown : ℚ := 0
  projectiles : ℚ := 0
  area : ℚ := 0
  duration : ℚ := 0
  speed : ℚ := 0
  pierce : ℚ := 0
  range : ℚ := 0
  knockback : ℚ := 0
  deriving Repr, DecidableEq

/-- The nine derived (or base) weapon stats handled by `recalculateStats`. -/
@[ext]
structure WeaponStats where
  damage : ℚ
  cooldown : ℚ
  projectiles : ℚ
  area : ℚ
  duration : ℚ
  speed : ℚ
  pierce : ℚ
  range : ℚ
  knockback : ℚ
  deriving Repr, DecidableEq

/-- Owner (player) stat bonuses read by `recalculateStats`:
`this.player.damage/cooldown/projectiles/area/projectileSpeed`. -/
structure PlayerMultipliers where
  damage : ℚ
  cooldown : ℚ
  projectiles : ℚ
  area : ℚ
  projectileSpeed : ℚ
  deriving Repr, DecidableEq

/-- One iteration of the upgrade loop in `Weapon.recalculateStats`; each
conditional mirrors the JS truthiness guard `if (upgrade.field)`. -/
def applyUpgrade (s : WeaponStats) (u : WeaponUpgrade) : WeaponStats where
  damage := if u.damage ≠ 0 then s.damage + u.damage else s.damage
  cooldown := if u.cooldown ≠ 0 then s.cooldown * (1 + u.cooldown) else s.cooldown
  projectiles := if u.projectiles ≠ 0 then s.projectiles + u.projectiles else s.projectiles
  area := if u.area ≠ 0 then s.area + u.area else s.area
  duration := if u.duration ≠ 0 then s.duration + u.duration else s.duration
  speed := if u.speed ≠ 0 then s.speed + u.speed else s.speed
  pierce := if u.pierce ≠ 0 then s.pierce + u.pierce else s.pierce
  range := if u.range ≠ 0 then s.range + u.range else s.range
  knockback := if u.knockback ≠ 0 then s.knockback + u.knockback else s.knockback

/-- `Weapon.recalculateStats` (src/unnamed/part_012): fold the first
`level - 1` upgrade-table entries over the base stats, then apply the owner
bonuses and clamp cooldown to the 50 ms floor. -/
def recalculateStats (base : WeaponStats) (upgrades : List WeaponUpgrade)
    (level : ℕ) (player : PlayerMultipliers) : WeaponStats :=
  let s := (upgrades.take (level - 1)).foldl applyUpgrade base
  { damage := s.damage * player.damage
    cooldown := max 50 (s.cooldown * player.cooldown)
    projectiles := s.projectiles + player.projectiles
    area := s.area * player.area
    duration := s.duration
    speed := s.speed * player.projectileSpeed
    pierce := s.pierce
    range := s.range
    knockback := s.knockback }

/-- Modelled from the claim wording of C2 (for refinement comparison, not
from the source): damage, pierce, projectiles, duration, speed, range and
knockback accumulate additively over the upgrade entries while cooldown AND
AREA compound multiplicatively, then owner bonuses and the 50 ms cooldown
floor are applied. -/
def claimedStatsC2 (base : WeaponStats) (upgrades : List WeaponUpgrade)
    (level : ℕ) (player : PlayerMultipliers) : WeaponStats :=
  let ups := upgrades.take (level - 1)
  { damage := (base.damage + (ups.map (fun u => u.damage)).sum) * player.damage
    cooldown := max 50 (base.cooldown * (ups.map (fun u => 1 + u.cooldown)).prod * player.cooldown)
    projectiles := base.projectiles + (ups.map (fun u => u.projectiles)).sum + player.projectiles
    area := base.area * (ups.map (fun u => 1 + u.area)).prod * player.area
    duration := base.duration + (ups.map (fun u => u.duration)).sum
    speed := (base.speed + (ups.map (fun u => u.speed)).sum) * player.projectileSpeed
    pierce := base.pierce + (ups.map (fun u => u.pierce)).sum
    range := base.range + (ups.map (fun u => u.range)).sum
    knockback := base.knockback + (ups.map (fun u => u.knockback)).sum }

/-- Same closed form with the area fold corrected to what the source does:
area accumulates additively (`area += upgrade.area`), exactly like damage. -/
def derivedStatsClosedForm (base : WeaponStats) (upgrades : List WeaponUpgrade)
    (level : ℕ) (player : PlayerMultipliers) : WeaponStats :=
  let ups := upgrades.take (level - 1)
  { damage := (base.damage + (ups.map (fun u => u.damage)).sum) * player.damage
    cooldown := max 50 (base.cooldown * (ups.map (fun u => 1 + u.cooldown)).prod * player.cooldown)
    projectiles := base.projectiles + (ups.map (fun u => u.projectiles)).sum + player.projectiles
    area := (base.area + (ups.map (fun u => u.area)).sum) * player.area
    duration := base.duration + (ups.map (fun u => u.duration)).sum
    speed := (base.speed + (ups.map (fun u => u.speed)).sum) * player.projectileSpeed
    pierce := base.pierce + (ups.map (fun u => u.pierce)).sum
    range := base.range + (ups.map (fun u => u.range)).sum
    knockback := base.knockback + (ups.map (fun u => u.knockback)).sum }

lemma foldl_applyUpgrade (l : List WeaponUpgrade) (s : WeaponStats) :
    l.foldl applyUpgrade s =
      { damage := s.damage + (l.map (fun u => u.damage)).sum
        cooldown := s.cooldown * (l.map (fun u => 1 + u.cooldown)).prod
        projectiles := s.projectiles + (l.map (fun u => u.projectiles)).sum
        area := s.area + (l.map (fun u => u.area)).sum
        duration := s.duration + (l.map (fun u => u.duration)).sum
        speed := s.speed + (l.map (fun u => u.speed)).sum
        pierce := s.pierce + (l.map (fun u => u.pierce)).sum
        range := s.range + (l.map (fun u => u.range)).sum
        knockback := s.knockback + (l.map (fun u => u.knockback)).sum } := by
  induction l generalizing s with
  | nil => simp
  | cons u l ih =>
    rw [List.foldl_cons, ih]
    ext <;> simp only [applyUpgrade, List.map_cons, List.sum_cons, List.prod_cons] <;>
      split_ifs with h <;> (try (push_neg at h; rw [h])) <;> ring

/-- Base stats used by the C2 counterexample: only area matters there. -/
def counterBase : WeaponStats :=
  { damage := 10, cooldown := 1000, projectiles := 1, area := 1, duration := 2000,
    speed := 300, pierce := 1, range := 0, knockback := 5 }

/-- Owner bonuses that are all neutral, used by the C2 counterexample. -/
def neutralPlayer : PlayerMultipliers :=
  { damage := 1, cooldown := 1, projectiles := 0, area := 1, projectileSpeed := 1 }

/-- Counterexample to C2 as stated: with base area 1 and two `{area: 0.5}`
upgrade entries at level 3, the source computes area additively
(`1 + 0.5 + 0.5 = 2`) whereas multiplicative compounding would give
`1 × 1.5 × 1.5 = 2.25`. -/
theorem recalculateStats_area_not_multiplicative :
    (recalculateStats counterBase [{ area := 1/2 }, { area := 1/2 }] 3 neutralPlayer).area = 2 ∧
      (claimedStatsC2 counterBase [{ area := 1/2 }, { area := 1/2 }] 3 neutralPlayer).area = 9/4 ∧
      recalculateStats counterBase [{ area := 1/2 }, { area := 1/2 }] 3 neutralPlayer ≠
        claimedStatsC2 counterBase [{ area := 1/2 }, { area := 1/2 }] 3 neutralPlayer := by
  have h1 : (recalculateStats counterBase [{ area := 1/2 }, { area := 1/2 }] 3 neutralPlayer).area = 2 := by
    norm_num [recalculateStats, applyUpgrade, counterBase, neutralPlayer]
  have h2 : (claimedStatsC2 counterBase [{ area := 1/2 }, { area := 1/2 }] 3 neutralPlayer).area = 9/4 := by
    norm_num [claimedStatsC2, counterBase, neutralPlayer]
  refine ⟨h1, h2, fun heq => ?_⟩
  rw [congrArg WeaponStats.area heq, h2] at h1
  norm_num at h1

/-- Claim C2 (amended): `recalculateStats()` computes every derived stat as a
pure function of the base stats, the upgrade entries at indices
`[0, level-1)`, and the owner's bonuses: damage, pierce, projectiles,
duration, speed, range, knockback AND AREA accumulate additively over the
upgrade entries, while cooldown compounds multiplicatively; owner bonuses
are then applied and cooldown is clamped to a minimum floor of 50 ms.  In
particular a weapon with base damage 10 and one `{damage: 5}` upgrade at
level 2 has recalculated damage `(10+5) × ownerDamageMultiplier`. -/
theorem recalculateStats_closed_form (base : WeaponStats)
    (upgrades : List WeaponUpgrade) (level : ℕ) (player : PlayerMultipliers) :
    recalculateStats base upgrades level player =
      derivedStatsClosedForm base upgrades level player := by
  unfold recalculateStats derivedStatsClosedForm
  rw [foldl_applyUpgrade]

/-- `EnemyManager.killEnemy` (src/unnamed/part_016): a one-time resurrect
restores half max hp, otherwise the enemy is flagged dead.  Side effects on
kill counters, drops and sounds are external collaborators and not part of
the enemy state transition. -/
def killEnemy (e : Enemy) : Enemy :=
  if e.resurrect = true ∧ e.resurrected = false then
    { e with hp := e.maxHp / 2, resurrected := true }
  else
    { e with dead := true }

/-- `EnemyManager.damageEnemy` (src/unnamed/part_016): no-op on a dead
enemy; otherwise subtract `amount * curse` from hp (no clamping) and invoke
`killEnemy` when the result is `<= 0`. -/
def damageEnemy (curse : ℚ) (e : Enemy) (amount : ℚ) : Enemy :=
  if e.dead = true then e
  else
    let e₁ : Enemy := { e with hp := e.hp - amount * curse }
    if e₁.hp ≤ 0 then killEnemy e₁ else e₁

/-- Enemy used by the C6 counterexample: 5 hp, no resurrect, alive. -/
def lowHpEnemy : Enemy :=
  { id := 7, x := 0, y := 0, radius := 10, hp := 5, maxHp := 50, dead := false,
    knockbackResist := 0, knockbackX := 0, knockbackY := 0,
    resurrect := false, resurrected := false }

/-- Counterexample to C6 as stated: damaging a 5 hp enemy for 20 leaves
`hp = -15 < 0` after resolution — the source never clamps hp to a
non-negative value before (or after) the death trigger. -/
theorem damageEnemy_hp_goes_negative :
    (damageEnemy 1 lowHpEnemy 20).hp = -15 ∧ (damageEnemy 1 lowHpEnemy 20).hp < 0 ∧
      (damageEnemy 1 lowHpEnemy 20).dead = true := by
  have hhp : (damageEnemy 1 lowHpEnemy 20).hp = -15 := by
    norm_num [damageEnemy, killEnemy, lowHpEnemy]
  refine ⟨hhp, by rw [hhp]; norm_num, ?_⟩
  norm_num [damageEnemy, killEnemy, lowHpEnemy]

/-- Claim C6 (amended): hp is NOT clamped — after a damage application it
equals exactly `hp - amount*curse` and may be negative; whenever that value
reaches or passes 0 the death trigger fires within the same resolution: the
enemy ends the call flagged dead (or, with an unused one-time resurrect,
alive again at half max hp). -/
theorem damageEnemy_death_trigger (curse : ℚ) (e : Enemy) (amount : ℚ)
    (halive : e.dead = false) :
    (0 < e.hp - amount * curse →
        damageEnemy curse e amount = { e with hp := e.hp - amount * curse }) ∧
      (e.hp - amount * curse ≤ 0 →
        (e.resurrect = true ∧ e.resurrected = false →
            (damageEnemy curse e amount).dead = false ∧
              (damageEnemy curse e amount).hp = e.maxHp / 2 ∧
              (damageEnemy curse e amount).resurrected = true) ∧
          (¬(e.resurrect = true ∧ e.resurrected = false) →
            (damageEnemy curse e amount).dead = true ∧
              (damageEnemy curse e amount).hp = e.hp - amount * curse)) := by
  constructor
  · intro hpos
    rw [damageEnemy, if_neg (by simp [halive]), if_neg (by simpa using not_le.mpr hpos)]
  · intro hneg
    constructor
    · intro hres
      have hneg' : e.hp ≤ amount * curse := sub_nonpos.mp hneg
      simp [damageEnemy, killEnemy, halive, hneg', hres]
    · intro hres
      have hneg' : e.hp ≤ amount * curse := sub_nonpos.mp hneg
      simp [damageEnemy, killEnemy, halive, hneg', hres]

/-- Witness for the amended C6 at the counterexample enemy: damage passes 0,
no resurrect, so the enemy ends dead with hp exactly `5 - 20 = -15`. -/
theorem damageEnemy_death_trigger_witness :
    (damageEnemy 1 lowHpEnemy 20).dead = true ∧
      (damageEnemy 1 lowHpEnemy 20).hp = lowHpEnemy.hp - 20 * 1 := by
  have h := (damageEnemy_death_trigger 1 lowHpEnemy 20 rfl).2
    (by norm_num [lowHpEnemy]) |>.2 (by norm_num [lowHpEnemy])
  exact h

/-- The `applyKnockback` closure attached to ordinary enemies by
`spawnEnemy` (src/unnamed/part_016): the force components are accumulated
directly (bosses and mini-bosses attenuate them; ordinary enemies do not). -/
def applyKnockback (e : Enemy) (kx ky : ℚ) : Enemy :=
  { e with knockbackX := e.knockbackX + kx, knockbackY := e.knockbackY + ky }

/-- The knockback part of a projectile-versus-enemy hit in
`ProjectileManager.checkEnemyCollisions`: direction `enemy - projectile`
normalized by `dist` (the source's `Math.sqrt(dx*dx+dy*dy) || 1`, passed
here as an argument), magnitude `projectile.knockback * (1 - knockbackResist)`. -/
def hitKnockback (pknockback px py : ℚ) (dist : ℚ) (e : Enemy) : Enemy :=
  let dx := e.x - px
  let dy := e.y - py
  let knockbackForce := pknockback * (1 - e.knockbackResist)
  applyKnockback e (dx / dist * knockbackForce) (dy / dist * knockbackForce)

/-- Claim C7: on a projectile hit the knockback handed to an ordinary enemy
is the unit enemy-minus-projectile vector scaled by
`projectile.knockback * (1 - knockbackResistance)`; starting from a zero
knockback accumulator, the accumulated knockback has squared magnitude
exactly the square of that force (so resistance 0.5 against force 10 leaves
magnitude 5 before decay). -/
theorem hitKnockback_magnitude (pknockback px py dist : ℚ) (e : Enemy)
    (hdist : dist * dist = (e.x - px) * (e.x - px) + (e.y - py) * (e.y - py))
    (hpos : 0 < dist) (hkx : e.knockbackX = 0) (hky : e.knockbackY = 0) :
    (hitKnockback pknockback px py dist e).knockbackX
        = (e.x - px) / dist * (pknockback * (1 - e.knockbackResist)) ∧
      (hitKnockback pknockback px py dist e).knockbackY
        = (e.y - py) / dist * (pknockback * (1 - e.knockbackResist)) ∧
      ((e.x - px) / dist) * ((e.x - px) / dist) + ((e.y - py) / dist) * ((e.y - py) / dist) = 1 ∧
      (hitKnockback pknockback px py dist e).knockbackX *
            (hitKnockback pknockback px py dist e).knockbackX +
          (hitKnockback pknockback px py dist e).knockbackY *
            (hitKnockback pknockback px py dist e).knockbackY
        = (pknockback * (1 - e.knockbackResist)) * (pknockback * (1 - e.knockbackResist)) := by
  have hne : dist ≠ 0 := ne_of_gt hpos
  have hx : (hitKnockback pknockback px py dist e).knockbackX
      = (e.x - px) / dist * (pknockback * (1 - e.knockbackResist)) := by
    simp [hitKnockback, applyKnockback, hkx]
  have hy : (hitKnockback pknockback px py dist e).knockbackY
      = (e.y - py) / dist * (pknockback * (1 - e.knockbackResist)) := by
    simp [hitKnockback, applyKnockback, hky]
  have hunit : ((e.x - px) / dist) * ((e.x - px) / dist) +
      ((e.y - py) / dist) * ((e.y - py) / dist) = 1 := by
    field_simp
    linarith [hdist]
  refine ⟨hx, hy, hunit, ?_⟩
  rw [hx, hy]
  field_simp
  nlinarith [hdist]

/-- Enemy used by the C7 witness (the spec's Scenario D): knockback
resistance 0.5, no accumulated knockback, at (3, 4). -/
def scenarioDEnemy : Enemy :=
  { id := 9, x := 3, y := 4, radius := 10, hp := 50, maxHp := 50, dead := false,
    knockbackResist := 1/2, knockbackX := 0, knockbackY := 0,
    resurrect := false, resurrected := false }

/-- Witness for C7, the spec's Scenario D: enemy at (3,4) from the
projectile (dist 5), knockbackResist 0.5, projectile knockback 10: the
accumulated knockback is (3, 4)·(5/5) scaled to force 5, squared magnitude 25. -/
theorem hitKnockback_magnitude_witness :
    (hitKnockback 10 0 0 5 scenarioDEnemy).knockbackX *
          (hitKnockback 10 0 0 5 scenarioDEnemy).knockbackX +
        (hitKnockback 10 0 0 5 scenarioDEnemy).knockbackY *
          (hitKnockback 10 0 0 5 scenarioDEnemy).knockbackY = 25 := by
  have h := (hitKnockback_magnitude 10 0 0 5 scenarioDEnemy
      (by norm_num [scenarioDEnemy]) (by norm_num) rfl rfl).2.2.2
  rw [h]
  norm_num [scenarioDEnemy]

/-- The list manipulation of `ProjectileManager.spawn` (maxProjectiles is
1000 in the source): at the cap the oldest projectile — index 0, since
spawn appends and removal preserves order — is shifted off, then the new
projectile is pushed.  The projectile payload is irrelevant here, so the
collection is modelled generically. -/
def projectileSpawnList {α : Type} (maxProjectiles : ℕ) (projectiles : List α) (newP : α) :
    List α :=
  let projectiles :=
    if maxProjectiles ≤ projectiles.length then projectiles.tail else projectiles
  projectiles ++ [newP]

/-- The spawn gate at the top of `EnemyManager.update`
(src/unnamed/part_016, lines 35-45): a wave is spawned only when the spawn
timer has expired AND the population is strictly below `maxEnemies`; the
model returns the new population count (`spawnWave` adds `waveSize`
enemies, nothing is ever evicted). -/
def enemyPopulationAfterSpawnCheck (spawnTimer : ℚ) (count maxEnemies waveSize : ℕ) : ℕ :=
  if spawnTimer ≤ 0 ∧ count < maxEnemies then count + waveSize else count

/-- Counterexample to C8 as stated: with the enemy population at the cap
(300 in the source config) and the spawn timer expired, the update skips
the wave entirely — the population stays at the cap, no oldest enemy is
evicted and no new enemy is created. -/
theorem enemySpawn_rejected_at_cap :
    enemyPopulationAfterSpawnCheck 0 300 300 5 = 300 := by
  simp [enemyPopulationAfterSpawnCheck]

/-- Claim C8 (amended): for projectiles the cap causes eviction, never a
skipped spawn — at the cap the oldest (index 0) projectile is dropped and
the new one is still appended, below the cap the list just grows; for
enemies, by contrast, wave spawning is gated on `count < maxEnemies`, so at
or above the cap the spawn is skipped (rejection, not eviction) until the
population drops. -/
theorem spawn_cap_behaviour {α : Type} (maxProjectiles : ℕ) (ps : List α) (newP : α)
    (spawnTimer : ℚ) (count maxEnemies waveSize : ℕ) :
    (newP ∈ projectileSpawnList maxProjectiles ps newP) ∧
      (maxProjectiles ≤ ps.length →
        projectileSpawnList maxProjectiles ps newP = ps.tail ++ [newP]) ∧
      (ps.length < maxProjectiles →
        projectileSpawnList maxProjectiles ps newP = ps ++ [newP]) ∧
      (maxEnemies ≤ count →
        enemyPopulationAfterSpawnCheck spawnTimer count maxEnemies waveSize = count) := by
  refine ⟨?_, ?_, ?_, ?_⟩
  · simp [projectileSpawnList]
  · intro hcap
    simp [projectileSpawnList, if_pos hcap]
  · intro hbelow
    simp [projectileSpawnList, if_neg (not_le.mpr hbelow)]
  · intro hcap
    rw [enemyPopulationAfterSpawnCheck, if_neg]
    rintro ⟨-, hlt⟩
    exact absurd hlt (not_lt.mpr hcap)

/-- Witness for the amended C8 at a concrete cap: three projectiles at cap 3
evict the oldest and append the new one; 300 enemies at cap 300 stay 300. -/
theorem spawn_cap_behaviour_witness :
    projectileSpawnList 3 [10, 20, 30] (40 : ℕ) = [20, 30, 40] ∧
      enemyPopulationAfterSpawnCheck 0 300 300 5 = 300 := by
  have h := spawn_cap_behaviour 3 [10, 20, 30] (40 : ℕ) 0 300 300 5
  exact ⟨(h.2.1 (by norm_num)).trans rfl, h.2.2.2 (by norm_num)⟩

/-- Projectile kind dispatched on in `ProjectileManager.update`. -/
inductive PType
  | projectile
  | melee
  | ground
  deriving Repr, DecidableEq

/-- Movement pattern dispatched on in `updateProjectile`; `linear` is the
default branch of the switch. -/
inductive PPattern
  | linear
  | arc
  | boomerang
  | bounce
  deriving Repr, DecidableEq

/-- Projectile record as built by `ProjectileManager.spawn`
(src/js/weapons/projectileManager.js).  The owner back-reference and the
`targetX/targetY` pair are read through parameters of the update functions;
visual-only fields (color, trail, glow, rotation) are omitted.
`expireCalls` counts invocations of the `onExpire` callback, and `removed`
models the projectile having been spliced out of the manager's list. -/
structure Projectile where
  x : ℚ
  y : ℚ
  dx : ℚ
  dy : ℚ
  speed : ℚ
  damage : ℚ
  pierce : ℕ
  pierceCount : ℕ
  duration : ℚ
  age : ℚ
  size : ℚ
  width : ℚ
  height : ℚ
  ptype : PType
  pattern : PPattern
  hitEnemies : List ℕ
  gravity : ℚ
  returnTime : ℚ
  returning : Bool
  knockback : ℚ
  tickRate : ℚ
  lastTick : ℚ
  target : Option (ℚ × ℚ)
  landed : Bool
  bounceCount : ℕ
  expireCalls : ℕ
  removed : Bool
  deriving Repr, DecidableEq

/-- The `arc` case of `updateProjectile`: gravity accelerates `dy`, then
linear integration with the updated `dy`. -/
def moveArc (dt : ℚ) (p : Projectile) : Projectile :=
  let dtS := dt / 1000
  let dy := p.dy + p.gravity * dtS
  { p with dy := dy, x := p.x + p.dx * p.speed * dtS, y := p.y + dy * p.speed * dtS }

/-- The `boomerang` case of `updateProjectile`: start returning once
`returnTime <= age`; while returning and owned, renormalize the velocity
toward the owner's current position and expire (`age = duration`) within
the 30-unit snap radius; finally integrate.  `dist` stands for the source's
`Math.sqrt(dx*dx + dy*dy)` to the owner. -/
def moveBoomerang (ownerPos : Option (ℚ × ℚ)) (dist dt : ℚ) (p : Projectile) : Projectile :=
  let dtS := dt / 1000
  let p₁ := if p.returning = false ∧ p.returnTime ≤ p.age then { p with returning := true } else p
  let p₂ :=
    match ownerPos with
    | some o =>
      if p₁.returning = true then
        let p₃ :=
          if 0 < dist then { p₁ with dx := (o.1 - p₁.x) / dist, dy := (o.2 - p₁.y) / dist }
          else p₁
        if dist < 30 then { p₃ with age := p₃.duration } else p₃
      else p₁
    | none => p₁
  { p₂ with x := p₂.x + p₂.dx * p₂.speed * dtS, y := p₂.y + p₂.dy * p₂.speed * dtS }

/-- The `bounce` case of `updateProjectile`: linear integration, then
reflection and clamping on each map-boundary crossing. -/
def moveBounce (mapW mapH dt : ℚ) (p : Projectile) : Projectile :=
  let dtS := dt / 1000
  let p₁ := { p with x := p.x + p.dx * p.speed * dtS, y := p.y + p.dy * p.speed * dtS }
  let p₂ :=
    if p₁.x < 0 ∨ mapW < p₁.x then
      { p₁ with dx := -p₁.dx, x := max 0 (min mapW p₁.x), bounceCount := p₁.bounceCount + 1 }
    else p₁
  if p₂.y < 0 ∨ mapH < p₂.y then
    { p₂ with dy := -p₂.dy, y := max 0 (min mapH p₂.y), bounceCount := p₂.bounceCount + 1 }
  else p₂

/-- The default (`linear`) case of `updateProjectile`. -/
def moveLinear (dt : ℚ) (p : Projectile) : Projectile :=
  let dtS := dt / 1000
  { p with x := p.x + p.dx * p.speed * dtS, y := p.y + p.dy * p.speed * dtS }

/-- `updateMelee`: a melee hitbox follows its owner. -/
def moveMelee (ownerPos : Option (ℚ × ℚ)) (p : Projectile) : Projectile :=
  match ownerPos with
  | some o => { p with x := o.1 + p.dx * (p.width / 2), y := o.2 }
  | none => p

/-- `updateGround`: move toward the fixed target, snapping to it (and
setting `landed`) once within one tick's travel; a missing target lands
immediately.  `dist` stands for the source's distance-to-target sqrt. -/
def moveGround (dist dt : ℚ) (p : Projectile) : Projectile :=
  if p.landed = true then p
  else
    match p.target with
    | some t =>
      if dist < p.speed * (dt / 1000) then { p with x := t.1, y := t.2, landed := true }
      else
        { p with x := p.x + (t.1 - p.x) / dist * p.speed * (dt / 1000),
                 y := p.y + (t.2 - p.y) / dist * p.speed * (dt / 1000) }
    | none => { p with landed := true }

/-- One projectile's slice of `ProjectileManager.update(dt)`: a removed
projectile is untouched (it is no longer in the list); otherwise age
advances, an age past `duration` fires `onExpire` and splices the
projectile out, and otherwise the kind/pattern-specific movement runs. -/
def updateProjectileTick (mapW mapH : ℚ) (ownerPos : Option (ℚ × ℚ)) (dist dt : ℚ)
    (p : Projectile) : Projectile :=
  if p.removed = true then p
  else
    let p₁ : Projectile := { p with age := p.age + dt }
    if p₁.duration ≤ p₁.age then { p₁ with expireCalls := p₁.expireCalls + 1, removed := true }
    else
      match p₁.ptype with
      | PType.projectile =>
        match p₁.pattern with
        | PPattern.arc => moveArc dt p₁
        | PPattern.boomerang => moveBoomerang ownerPos dist dt p₁
        | PPattern.bounce => moveBounce mapW mapH dt p₁
        | PPattern.linear => moveLinear dt p₁
      | PType.melee => moveMelee ownerPos p₁
      | PType.ground => moveGround dist dt p₁

/-- `ProjectileManager.rectCircleCollision`, which is sqrt-free in the
source already. -/
def rectCircleCollision (rx ry rw rh cx cy cr : ℚ) : Bool :=
  let closestX := max rx (min cx (rx + rw))
  let closestY := max ry (min cy (ry + rh))
  let dx := cx - closestX
  let dy := cy - closestY
  decide (dx * dx + dy * dy < cr * cr)

/-- The per-enemy overlap test of `checkEnemyCollisions`: rectangle-circle
for melee-style hitboxes (`width > 0 && height > 0`), otherwise the circle
test `sqrt(dx^2+dy^2) < size + radius`, translated to its exact squared
equivalent (for any s, `sqrt(d) < s` iff `0 < s` and `d < s^2`). -/
def projHitTest (p : Projectile) (e : Enemy) : Bool :=
  if 0 < p.width ∧ 0 < p.height then
    rectCircleCollision (p.x - p.width / 2) (p.y - p.height / 2) p.width p.height e.x e.y e.radius
  else
    decide (0 < p.size + e.radius ∧
      (p.x - e.x) * (p.x - e.x) + (p.y - e.y) * (p.y - e.y)
        < (p.size + e.radius) * (p.size + e.radius))

/-- The projectile-side bookkeeping of a hit in `checkEnemyCollisions`:
record the enemy id in the hit-set and bump the pierce counter. -/
def hitUpdate (p : Projectile) (eid : ℕ) : Projectile :=
  { p with hitEnemies := p.hitEnemies ++ [eid], pierceCount := p.pierceCount + 1 }

/-- The pierce-exhaustion expiry inside the hit branch: `onExpire` is
invoked (counted) and `age` is forced to `duration`. -/
def expireNow (p : Projectile) : Projectile :=
  { p with expireCalls := p.expireCalls + 1, age := p.duration }

/-- The inner enemy loop of `checkEnemyCollisions` for one projectile:
skip already-hit enemies, and on a hit record the enemy id, bump the pierce
counter, and — once the pierce limit is reached — fire `onExpire`, set
`age = duration` and break out of the loop.  The returned id list collects
the damage events (`enemy.takeDamage(p.damage)` calls) of the pass; the
enemy-side state changes are modelled by `damageEnemy`/`hitKnockback` and
cannot influence this loop, which reads only the immutable id, position and
radius of each enemy of the pre-queried `nearby` list. -/
def collideLoop (p : Projectile) (events : List ℕ) : List Enemy → Projectile × List ℕ
  | [] => (p, events)
  | e :: rest =>
    if e.id ∈ p.hitEnemies then collideLoop p events rest
    else if projHitTest p e = true then
      if (hitUpdate p e.id).pierce ≤ (hitUpdate p e.id).pierceCount then
        (expireNow (hitUpdate p e.id), events ++ [e.id])
      else collideLoop (hitUpdate p e.id) (events ++ [e.id]) rest
    else collideLoop p events rest

/-- One projectile's slice of `checkEnemyCollisions`: not-landed ground
effects do not hit; a tick-rate-limited projectile hits only when its
interval has elapsed, and then clears its hit-set (the pierce counter is
NOT reset); `nearby` is the spatial-hash query result. -/
def collisionPass (p : Projectile) (nearby : List Enemy) : Projectile × List ℕ :=
  if p.removed = true then (p, [])
  else if p.ptype = PType.ground ∧ p.landed = false then (p, [])
  else if 0 < p.tickRate then
    if p.age - p.lastTick < p.tickRate then (p, [])
    else collideLoop { p with lastTick := p.age, hitEnemies := [] } [] nearby
  else collideLoop p [] nearby

/-- One full simulation tick for a single projectile, in the order of
`Game.update`: `projectileManager.update(dt)` (age, expiry, movement,
removal) strictly before `checkCollisions()` → `checkEnemyCollisions`. -/
def simTick (mapW mapH : ℚ) (ownerPos : Option (ℚ × ℚ)) (dist dt : ℚ)
    (nearby : List Enemy) (p : Projectile) : Projectile × List ℕ :=
  collisionPass (updateProjectileTick mapW mapH ownerPos dist dt p) nearby

/-- Fields of a projectile that movement never touches (plus the fact that
movement can only leave `age` alone or — boomerang snap — set it to
`duration`). -/
def BookEq (q p : Projectile) : Prop :=
  q.pierce = p.pierce ∧ q.pierceCount = p.pierceCount ∧ q.duration = p.duration ∧
    q.expireCalls = p.expireCalls ∧ q.removed = p.removed ∧ q.ptype = p.ptype ∧
    q.pattern = p.pattern ∧ q.speed = p.speed ∧ q.tickRate = p.tickRate ∧
    (q.age = p.age ∨ q.age = p.duration)

lemma moveArc_book (dt : ℚ) (p : Projectile) : BookEq (moveArc dt p) p := by
  simp [BookEq, moveArc]

lemma moveLinear_book (dt : ℚ) (p : Projectile) : BookEq (moveLinear dt p) p := by
  simp [BookEq, moveLinear]

lemma moveMelee_book (ownerPos : Option (ℚ × ℚ)) (p : Projectile) :
    BookEq (moveMelee ownerPos p) p := by
  rcases ownerPos with - | o <;> simp [BookEq, moveMelee]

lemma moveBounce_book (mapW mapH dt : ℚ) (p : Projectile) :
    BookEq (moveBounce mapW mapH dt p) p := by
  rw [moveBounce]
  split_ifs <;> simp [BookEq]

lemma moveGround_book (dist dt : ℚ) (p : Projectile) :
    BookEq (moveGround dist dt p) p := by
  rw [moveGround]
  split_ifs <;> rcases htgt : p.target with - | t <;> simp [htgt, BookEq]

lemma moveBoomerang_book (ownerPos : Option (ℚ × ℚ)) (dist dt : ℚ) (p : Projectile) :
    BookEq (moveBoomerang ownerPos dist dt p) p := by
  rw [moveBoomerang.eq_def]
  rcases ownerPos with - | o <;> split_ifs <;>
    by_cases hr : p.returning = true <;> simp [BookEq, hr]

/-- `updateProjectileTick` case analysis: counters are preserved, and the
tick either leaves a removed projectile alone, expires by age, or moves. -/
lemma updateTick_book (mapW mapH : ℚ) (ownerPos : Option (ℚ × ℚ)) (dist dt : ℚ)
    (p : Projectile) :
    (p.removed = true ∧ updateProjectileTick mapW mapH ownerPos dist dt p = p) ∨
      (p.removed = false ∧ p.duration ≤ p.age + dt ∧
        updateProjectileTick mapW mapH ownerPos dist dt p =
          { p with age := p.age + dt, expireCalls := p.expireCalls + 1, removed := true }) ∨
      (p.removed = false ∧ ¬p.duration ≤ p.age + dt ∧
        BookEq (updateProjectileTick mapW mapH ownerPos dist dt p)
          { p with age := p.age + dt }) := by
  by_cases hrem : p.removed = true
  · exact Or.inl ⟨hrem, by rw [updateProjectileTick, if_pos hrem]⟩
  · have hrem' : p.removed = false := by simpa using hrem
    by_cases hexp : p.duration ≤ p.age + dt
    · refine Or.inr (Or.inl ⟨hrem', hexp, ?_⟩)
      rw [updateProjectileTick, if_neg hrem]
      simp only [if_pos hexp]
    · refine Or.inr (Or.inr ⟨hrem', hexp, ?_⟩)
      rw [updateProjectileTick, if_neg hrem]
      simp only [if_neg hexp]
      rcases hty : p.ptype with - | - | -
      · rcases hpat : p.pattern with - | - | - | -
        all_goals simp only [hty, hpat]
        · exact moveLinear_book dt _
        · exact moveArc_book dt _
        · exact moveBoomerang_book ownerPos dist dt _
        · exact moveBounce_book mapW mapH dt _
      · simp only [hty]
        exact moveMelee_book ownerPos _
      · simp only [hty]
        exact moveGround_book dist dt _

/-- Fields `collideLoop` never touches, plus the count relation: each
recorded damage event increments `pierceCount` by exactly one. -/
lemma collideLoop_book (l : List Enemy) (p : Projectile) (evts : List ℕ) :
    (collideLoop p evts l).1.pierce = p.pierce ∧
      (collideLoop p evts l).1.duration = p.duration ∧
      (collideLoop p evts l).1.removed = p.removed ∧
      (collideLoop p evts l).1.ptype = p.ptype ∧
      (collideLoop p evts l).1.pattern = p.pattern ∧
      (collideLoop p evts l).1.speed = p.speed ∧
      (collideLoop p evts l).2.length + p.pierceCount
        = evts.length + (collideLoop p evts l).1.pierceCount := by
  induction l generalizing p evts with
  | nil => simp [collideLoop]
  | cons e rest ih =>
    rw [collideLoop]
    split_ifs with h₁ h₂ h₃
    · exact ih p evts
    · refine ⟨rfl, rfl, rfl, rfl, rfl, rfl, ?_⟩
      simp only [expireNow, hitUpdate, List.length_append, List.length_cons, List.length_nil]
      omega
    · have h := ih (hitUpdate p e.id) (evts ++ [e.id])
      simp only [hitUpdate, List.length_append, List.length_cons, List.length_nil] at h ⊢
      refine ⟨h.1, h.2.1, h.2.2.1, h.2.2.2.1, h.2.2.2.2.1, h.2.2.2.2.2.1, ?_⟩
      omega
    · exact ih p evts

/-- The pierce discipline of one `collideLoop` pass entered below the
limit: the counter never exceeds the limit, and it reaches the limit
exactly when the pass force-expired the projectile (one `onExpire` call,
`age = duration`); otherwise age and expire count are untouched. -/
lemma collideLoop_pierce (l : List Enemy) (p : Projectile) (evts : List ℕ)
    (h : p.pierceCount < p.pierce) :
    (collideLoop p evts l).1.pierceCount ≤ (collideLoop p evts l).1.pierce ∧
      ((collideLoop p evts l).1.pierce ≤ (collideLoop p evts l).1.pierceCount →
        (collideLoop p evts l).1.age = p.duration ∧
          (collideLoop p evts l).1.expireCalls = p.expireCalls + 1) ∧
      ((collideLoop p evts l).1.pierceCount < (collideLoop p evts l).1.pierce →
        (collideLoop p evts l).1.age = p.age ∧
          (collideLoop p evts l).1.expireCalls = p.expireCalls) := by
  induction l generalizing p evts with
  | nil =>
    exact ⟨le_of_lt h, fun hh => absurd hh (not_le.mpr h), fun _ => ⟨rfl, rfl⟩⟩
  | cons e rest ih =>
    rw [collideLoop]
    split_ifs with h₁ h₂ h₃
    · exact ih p evts h
    · refine ⟨?_, fun _ => ?_, fun hlt => ?_⟩
      · simp only [expireNow, hitUpdate]
        omega
      · exact ⟨rfl, rfl⟩
      · simp only [expireNow, hitUpdate] at hlt h₃
        exact absurd h₃ (not_le.mpr hlt)
    · have hlt : (hitUpdate p e.id).pierceCount < (hitUpdate p e.id).pierce := by
        simp only [hitUpdate] at h₃ ⊢
        omega
      exact ih (hitUpdate p e.id) (evts ++ [e.id]) hlt
    · exact ih p evts h

/-- The pierce invariant carried along a projectile's lifetime: the counter
never exceeds the limit, and a projectile that has reached the limit has
already been force-expired (`duration <= age`). -/
def PierceInv (p : Projectile) : Prop :=
  p.pierceCount ≤ p.pierce ∧ (p.pierce ≤ p.pierceCount → p.duration ≤ p.age)

lemma simTick_pierce_eq (mapW mapH : ℚ) (ownerPos : Option (ℚ × ℚ)) (dist dt : ℚ)
    (nearby : List Enemy) (p : Projectile) :
    (simTick mapW mapH ownerPos dist dt nearby p).1.pierce = p.pierce := by
  have hu := updateTick_book mapW mapH ownerPos dist dt p
  set u := updateProjectileTick mapW mapH ownerPos dist dt p with hudef
  have hupierce : u.pierce = p.pierce := by
    rcases hu with ⟨-, hq⟩ | ⟨-, -, hq⟩ | ⟨-, -, hq⟩
    · rw [hq]
    · rw [hq]
    · exact hq.1
  rw [simTick, ← hudef, collisionPass]
  split_ifs <;>
    simp only [hupierce, (collideLoop_book nearby _ []).1, hupierce]

/-- Each damage event of a tick increments `pierceCount` by exactly one. -/
lemma simTick_count (mapW mapH : ℚ) (ownerPos : Option (ℚ × ℚ)) (dist dt : ℚ)
    (nearby : List Enemy) (p : Projectile) :
    (simTick mapW mapH ownerPos dist dt nearby p).2.length + p.pierceCount
      = (simTick mapW mapH ownerPos dist dt nearby p).1.pierceCount := by
  have hu := updateTick_book mapW mapH ownerPos dist dt p
  set u := updateProjectileTick mapW mapH ownerPos dist dt p with hudef
  have hupc : u.pierceCount = p.pierceCount := by
    rcases hu with ⟨-, hq⟩ | ⟨-, -, hq⟩ | ⟨-, -, hq⟩
    · rw [hq]
    · rw [hq]
    · exact hq.2.1
  rw [simTick, ← hudef, collisionPass]
  split_ifs
  · simpa using hupc.symm
  · simpa using hupc.symm
  · simpa using hupc.symm
  · have := (collideLoop_book nearby { u with lastTick := u.age, hitEnemies := [] } []).2.2.2.2.2.2
    simp only [List.length_nil, Nat.zero_add] at this
    omega
  · have := (collideLoop_book nearby u []).2.2.2.2.2.2
    simp only [List.length_nil, Nat.zero_add] at this
    omega

lemma simTick_inv (mapW mapH : ℚ) (ownerPos : Option (ℚ × ℚ)) (dist dt : ℚ)
    (nearby : List Enemy) (p : Projectile) (hdt : 0 ≤ dt) (h : PierceInv p) :
    PierceInv (simTick mapW mapH ownerPos dist dt nearby p).1 := by
  have hu := updateTick_book mapW mapH ownerPos dist dt p
  set u := updateProjectileTick mapW mapH ownerPos dist dt p with hudef
  rw [simTick, ← hudef]
  rcases hu with ⟨hrem, hq⟩ | ⟨hrem, hexp, hq⟩ | ⟨hrem, hexp, hq⟩
  · rw [collisionPass, if_pos (by rw [hq]; exact hrem)]
    rw [hq]
    exact h
  · rw [collisionPass, if_pos (by rw [hq])]
    rw [hq]
    exact ⟨h.1, fun _ => hexp⟩
  · have hpclt : u.pierceCount < u.pierce := by
      rcases Nat.lt_or_ge p.pierceCount p.pierce with hlt | hge
      · rw [hq.2.1, hq.1]
        exact hlt
      · exact absurd (le_trans (h.2 hge) (by linarith)) hexp
    have hremu : u.removed = false := by
      rw [hq.2.2.2.2.1]
      exact hrem
    rw [collisionPass, if_neg (by rw [hremu]; simp)]
    split_ifs with hg ht hi
    · exact ⟨le_of_lt hpclt, fun hh => absurd hh (not_le.mpr hpclt)⟩
    · exact ⟨le_of_lt hpclt, fun hh => absurd hh (not_le.mpr hpclt)⟩
    · have hb := collideLoop_book nearby { u with lastTick := u.age, hitEnemies := [] } []
      have hp := collideLoop_pierce nearby { u with lastTick := u.age, hitEnemies := [] } []
        (by simpa using hpclt)
      refine ⟨hp.1, fun hh => ?_⟩
      rw [hb.2.1, (hp.2.1 hh).1]
    · have hb := collideLoop_book nearby u []
      have hp := collideLoop_pierce nearby u [] hpclt
      refine ⟨hp.1, fun hh => ?_⟩
      rw [hb.2.1, (hp.2.1 hh).1]

lemma simTick_expired (mapW mapH : ℚ) (ownerPos : Option (ℚ × ℚ)) (dist dt : ℚ)
    (nearby : List Enemy) (p : Projectile) (hdt : 0 ≤ dt)
    (h : p.duration ≤ p.age ∨ p.removed = true) :
    (simTick mapW mapH ownerPos dist dt nearby p).2 = [] ∧
      (simTick mapW mapH ownerPos dist dt nearby p).1.removed = true := by
  have hu := updateTick_book mapW mapH ownerPos dist dt p
  set u := updateProjectileTick mapW mapH ownerPos dist dt p with hudef
  rw [simTick, ← hudef]
  rcases hu with ⟨hrem, hq⟩ | ⟨hrem, hexp, hq⟩ | ⟨hrem, hexp, hq⟩
  · rw [collisionPass, if_pos (by rw [hq]; exact hrem)]
    exact ⟨rfl, by rw [hq]; exact hrem⟩
  · rw [collisionPass, if_pos (by rw [hq])]
    exact ⟨rfl, by rw [hq]⟩
  · rcases h with hage | hrem'
    · exact absurd (le_trans hage (by linarith)) hexp
    · exact absurd hrem' (by rw [hrem]; simp)

/-- Claim C1: along any lifetime (any sequence of per-tick map sizes, owner
positions, oracle distances, nonnegative time steps and spatial-query
results), a projectile spawned with a fresh pierce counter and a pierce
limit of at least 1 produces at most `pierce` damage events in total — so
in particular it damages at most `pierce` distinct enemies — and in the
very pass in which the pierce counter reaches the limit the projectile is
expired (`duration <= age`), so any tick that starts at or past the limit
damages nobody (this covers tick-rate ground projectiles: their hit-set is
cleared per interval but `pierceCount` is never reset). -/
theorem projectile_pierce_limit (mapW mapH dist dt : ℕ → ℚ)
    (ownerPos : ℕ → Option (ℚ × ℚ)) (nearby : ℕ → List Enemy)
    (traj : ℕ → Projectile) (evts : ℕ → List ℕ)
    (hdt : ∀ i, 0 ≤ dt i)
    (hstep : ∀ i, (traj (i + 1), evts i)
      = simTick (mapW i) (mapH i) (ownerPos i) (dist i) (dt i) (nearby i) (traj i))
    (hpc0 : (traj 0).pierceCount = 0) (hpr : 1 ≤ (traj 0).pierce) :
    (∀ n, (((List.range n).map evts).flatten).length ≤ (traj 0).pierce ∧
        (((List.range n).map evts).flatten.dedup).length ≤ (traj 0).pierce) ∧
      ∀ i, (traj i).pierce ≤ (traj i).pierceCount →
        (traj i).duration ≤ (traj i).age ∧ evts i = [] := by
  have htraj : ∀ i, traj (i + 1)
      = (simTick (mapW i) (mapH i) (ownerPos i) (dist i) (dt i) (nearby i) (traj i)).1 :=
    fun i => congrArg Prod.fst (hstep i)
  have hevts : ∀ i, evts i
      = (simTick (mapW i) (mapH i) (ownerPos i) (dist i) (dt i) (nearby i) (traj i)).2 :=
    fun i => congrArg Prod.snd (hstep i)
  have hInv : ∀ i, PierceInv (traj i) := by
    intro i
    induction i with
    | zero => exact ⟨by omega, fun hh => absurd hh (by omega)⟩
    | succ i ih =>
      rw [htraj i]
      exact simTick_inv _ _ _ _ _ _ _ (hdt i) ih
  have hconst : ∀ i, (traj i).pierce = (traj 0).pierce := by
    intro i
    induction i with
    | zero => rfl
    | succ i ih =>
      rw [htraj i, simTick_pierce_eq]
      exact ih
  have hcount : ∀ n, (((List.range n).map evts).flatten).length + (traj 0).pierceCount
      = (traj n).pierceCount := by
    intro n
    induction n with
    | zero => simp
    | succ n ih =>
      rw [List.range_succ, List.map_append, List.flatten_append, List.length_append,
        htraj n, ← simTick_count (mapW n) (mapH n) (ownerPos n) (dist n) (dt n)
          (nearby n) (traj n)]
      simp only [List.map_cons, List.map_nil, List.flatten_cons, List.flatten_nil,
        List.append_nil]
      rw [hevts n]
      omega
  refine ⟨fun n => ?_, fun i hi => ?_⟩
  · have h1 : (((List.range n).map evts).flatten).length ≤ (traj 0).pierce := by
      have := hcount n
      have h2 := (hInv n).1
      rw [hconst n] at h2
      omega
    exact ⟨h1, le_trans (List.Sublist.length_le (List.dedup_sublist _)) h1⟩
  · refine ⟨(hInv i).2 hi, ?_⟩
    rw [hevts i]
    exact (simTick_expired _ _ _ _ _ _ _ (hdt i) (Or.inl ((hInv i).2 hi))).1

/-- A projectile spliced out of the list is never processed again. -/
lemma simTick_removed (mapW mapH : ℚ) (ownerPos : Option (ℚ × ℚ)) (dist dt : ℚ)
    (nearby : List Enemy) (p : Projectile) (hrem : p.removed = true) :
    simTick mapW mapH ownerPos dist dt nearby p = (p, []) := by
  rw [simTick, updateProjectileTick, if_pos hrem, collisionPass, if_pos hrem]

/-- A live projectile whose age reaches `duration` this update gets exactly
one `onExpire` call, is removed, and takes part in no collision pass. -/
lemma simTick_ageExpire (mapW mapH : ℚ) (ownerPos : Option (ℚ × ℚ)) (dist dt : ℚ)
    (nearby : List Enemy) (p : Projectile) (hrem : p.removed = false)
    (hexp : p.duration ≤ p.age + dt) :
    (simTick mapW mapH ownerPos dist dt nearby p).1.expireCalls = p.expireCalls + 1 ∧
      (simTick mapW mapH ownerPos dist dt nearby p).1.removed = true ∧
      (simTick mapW mapH ownerPos dist dt nearby p).2 = [] := by
  rw [simTick, updateProjectileTick, if_neg (by rw [hrem]; simp)]
  simp only [if_pos hexp]
  rw [collisionPass, if_pos rfl]
  exact ⟨rfl, rfl, rfl⟩

/-- Claim C10: the `onExpire` callback runs exactly twice when a projectile
expires by pierce exhaustion — once synchronously in the collision pass in
which `pierceCount` reaches the pierce limit (which also sets
`age = duration`), and a second time in the following tick's update before
removal — whereas a projectile that expires by reaching its duration gets
exactly one call (and a removed projectile is never processed again, so
there is no third call). -/
theorem onExpire_call_discipline (mapW mapH : ℚ) (ownerPos : Option (ℚ × ℚ))
    (dist dt : ℚ) (nearby : List Enemy) (p : Projectile)
    (hpc : p.pierceCount < p.pierce) :
    (p.removed = true → simTick mapW mapH ownerPos dist dt nearby p = (p, [])) ∧
      (p.removed = false → p.duration ≤ p.age + dt →
        (simTick mapW mapH ownerPos dist dt nearby p).1.expireCalls = p.expireCalls + 1 ∧
          (simTick mapW mapH ownerPos dist dt nearby p).1.removed = true ∧
          (simTick mapW mapH ownerPos dist dt nearby p).2 = []) ∧
      ((simTick mapW mapH ownerPos dist dt nearby p).1.removed = false →
        (simTick mapW mapH ownerPos dist dt nearby p).1.pierce
            ≤ (simTick mapW mapH ownerPos dist dt nearby p).1.pierceCount →
        (simTick mapW mapH ownerPos dist dt nearby p).1.expireCalls = p.expireCalls + 1 ∧
          ∀ (mapW₂ mapH₂ dist₂ dt₂ : ℚ) (ownerPos₂ : Option (ℚ × ℚ)) (nearby₂ : List Enemy),
            0 ≤ dt₂ →
            ((simTick mapW₂ mapH₂ ownerPos₂ dist₂ dt₂ nearby₂
                (simTick mapW mapH ownerPos dist dt nearby p).1).1.expireCalls
                = p.expireCalls + 2 ∧
              (simTick mapW₂ mapH₂ ownerPos₂ dist₂ dt₂ nearby₂
                (simTick mapW mapH ownerPos dist dt nearby p).1).1.removed = true ∧
              (simTick mapW₂ mapH₂ ownerPos₂ dist₂ dt₂ nearby₂
                (simTick mapW mapH ownerPos dist dt nearby p).1).2 = [])) := by
  refine ⟨simTick_removed mapW mapH ownerPos dist dt nearby p,
    simTick_ageExpire mapW mapH ownerPos dist dt nearby p, ?_⟩
  intro hqrem hqpc
  have hu := updateTick_book mapW mapH ownerPos dist dt p
  set u := updateProjectileTick mapW mapH ownerPos dist dt p with hudef
  have hpass : (simTick mapW mapH ownerPos dist dt nearby p) = collisionPass u nearby := by
    rw [simTick, ← hudef]
  rcases hu with ⟨hrem, hq⟩ | ⟨hrem, hexp, hq⟩ | ⟨hrem, hexp, hq⟩
  · exfalso
    rw [hpass, collisionPass, if_pos (by rw [hq]; exact hrem)] at hqrem
    rw [hq] at hqrem
    rw [hqrem] at hrem
    exact Bool.false_ne_true hrem
  · exfalso
    rw [hpass, collisionPass, if_pos (by rw [hq])] at hqrem
    rw [hq] at hqrem
    simp at hqrem
  · -- the update survived: the pass itself must have exhausted the pierce
    have hpcu : u.pierceCount < u.pierce := by
      rw [hq.2.1, hq.1]
      exact hpc
    have hexpu : u.expireCalls = p.expireCalls := hq.2.2.2.1
    have hremu : u.removed = false := by
      rw [hq.2.2.2.2.1]
      exact hrem
    rw [hpass] at hqrem hqpc ⊢
    rw [collisionPass, if_neg (by rw [hremu]; simp)] at hqrem hqpc ⊢
    split_ifs at hqrem hqpc ⊢ with hg ht hi
    · exact absurd hqpc (not_le.mpr hpcu)
    · exact absurd hqpc (not_le.mpr hpcu)
    · have hb := collideLoop_book nearby { u with lastTick := u.age, hitEnemies := [] } []
      have hp := collideLoop_pierce nearby { u with lastTick := u.age, hitEnemies := [] } []
        (by simpa using hpcu)
      have hcall : (collideLoop { u with lastTick := u.age, hitEnemies := [] } [] nearby).1.expireCalls
          = p.expireCalls + 1 := by
        rw [(hp.2.1 hqpc).2]
        simp only []
        rw [hexpu]
      refine ⟨hcall, ?_⟩
      intro mapW₂ mapH₂ dist₂ dt₂ ownerPos₂ nearby₂ hdt₂
      have hage : (collideLoop { u with lastTick := u.age, hitEnemies := [] } [] nearby).1.duration
          ≤ (collideLoop { u with lastTick := u.age, hitEnemies := [] } [] nearby).1.age + dt₂ := by
        rw [hb.2.1, (hp.2.1 hqpc).1]
        simp only []
        linarith
      have h2 := simTick_ageExpire mapW₂ mapH₂ ownerPos₂ dist₂ dt₂ nearby₂ _ hqrem hage
      rw [h2.1, hcall]
      exact ⟨rfl, h2.2.1, h2.2.2⟩
    · have hb := collideLoop_book nearby u []
      have hp := collideLoop_pierce nearby u [] hpcu
      have hcall : (collideLoop u [] nearby).1.expireCalls = p.expireCalls + 1 := by
        rw [(hp.2.1 hqpc).2, hexpu]
      refine ⟨hcall, ?_⟩
      intro mapW₂ mapH₂ dist₂ dt₂ ownerPos₂ nearby₂ hdt₂
      have hage : (collideLoop u [] nearby).1.duration
          ≤ (collideLoop u [] nearby).1.age + dt₂ := by
        rw [hb.2.1, (hp.2.1 hqpc).1]
        linarith
      have h2 := simTick_ageExpire mapW₂ mapH₂ ownerPos₂ dist₂ dt₂ nearby₂ _ hqrem hage
      rw [h2.1, hcall]
      exact ⟨rfl, h2.2.1, h2.2.2⟩

/-- Enemy sitting right on the projectile, used by the C1/C10 witnesses. -/
def eHit : Enemy :=
  { id := 42, x := 0, y := 0, radius := 10, hp := 50, maxHp := 50, dead := false,
    knockbackResist := 0, knockbackX := 0, knockbackY := 0,
    resurrect := false, resurrected := false }

/-- Freshly spawned pierce-1 projectile used by the C1/C10 witnesses. -/
def pHit : Projectile :=
  { x := 0, y := 0, dx := 1, dy := 0, speed := 0, damage := 20, pierce := 1,
    pierceCount := 0, duration := 2000, age := 0, size := 8, width := 0, height := 0,
    ptype := PType.projectile, pattern := PPattern.linear, hitEnemies := [],
    gravity := 0, returnTime := 0, returning := false, knockback := 5, tickRate := 0,
    lastTick := 0, target := none, landed := false, bounceCount := 0,
    expireCalls := 0, removed := false }

/-- The state of `pHit` after one tick against `eHit`: aged by 16 ms, then
the collision hit exhausted its pierce limit — one recorded hit, one
`onExpire` call, `age` forced to `duration`. -/
def pHitAfter : Projectile :=
  { pHit with age := 2000, pierceCount := 1, hitEnemies := [42], expireCalls := 1 }

lemma simTick_hit_eval : simTick 4000 4000 none 0 16 [eHit] pHit = (pHitAfter, [42]) := by
  rw [simTick]
  norm_num [updateProjectileTick, moveLinear, collisionPass, collideLoop, hitUpdate,
    expireNow, projHitTest, pHit, eHit, pHitAfter, Prod.ext_iff, Projectile.mk.injEq]
  decide

def c1Traj : ℕ → Projectile
  | 0 => pHit
  | n + 1 => (simTick 4000 4000 none 0 16 [eHit] (c1Traj n)).1

def c1Evts (n : ℕ) : List ℕ :=
  (simTick 4000 4000 none 0 16 [eHit] (c1Traj n)).2

/-- Witness for C1: over the concrete 5-tick lifetime of `pHit` against
`eHit` (which is hit in the very first pass) the total number of damage
events is bounded by the pierce limit 1. -/
theorem projectile_pierce_limit_witness :
    (((List.range 5).map c1Evts).flatten).length ≤ (c1Traj 0).pierce ∧ c1Evts 0 = [42] := by
  have h := projectile_pierce_limit (fun _ => 4000) (fun _ => 4000) (fun _ => 0)
    (fun _ => 16) (fun _ => none) (fun _ => [eHit]) c1Traj c1Evts
    (fun i => by norm_num) (fun i => rfl) rfl (le_refl 1)
  exact ⟨(h.1 5).1, congrArg Prod.snd simTick_hit_eval⟩

/-- Witness for C10 on the concrete scenario: the pierce-exhausting pass
fires `onExpire` once (count 1), and the following tick fires it a second
time and removes the projectile (count 2). -/
theorem onExpire_call_discipline_witness :
    (simTick 4000 4000 none 0 16 [eHit] pHit).1.expireCalls = 1 ∧
      (simTick 4000 4000 none 0 16 [eHit]
          (simTick 4000 4000 none 0 16 [eHit] pHit).1).1.expireCalls = 2 ∧
      (simTick 4000 4000 none 0 16 [eHit]
          (simTick 4000 4000 none 0 16 [eHit] pHit).1).1.removed = true := by
  have h := onExpire_call_discipline 4000 4000 none 0 16 [eHit] pHit (by decide)
  have hrem : (simTick 4000 4000 none 0 16 [eHit] pHit).1.removed = false := by
    rw [simTick_hit_eval]
    decide
  have hcnt : (simTick 4000 4000 none 0 16 [eHit] pHit).1.pierce
      ≤ (simTick 4000 4000 none 0 16 [eHit] pHit).1.pierceCount := by
    rw [simTick_hit_eval]
    decide
  obtain ⟨h1, h2⟩ := h.2.2 hrem hcnt
  have h3 := h2 4000 4000 0 16 none [eHit] (by norm_num)
  refine ⟨?_, ?_, h3.2.1⟩
  · rw [h1]
    decide
  · rw [h3.1]
    decide

/-- Moving a step of length `s` along the unit vector of a vector of norm
`d` shortens the norm to `d - s` (squared form). -/
lemma dist_shrink (A B d s : ℚ) (hne : d ≠ 0) (hd : d * d = A * A + B * B) :
    (A - A / d * s) * (A - A / d * s) + (B - B / d * s) * (B - B / d * s)
      = (d - s) * (d - s) := by
  field_simp
  ring_nf
  nlinarith [hd, sq_nonneg (d - s)]

/-- One live tick of a returning boomerang outside the snap radius: the
velocity is renormalized toward the owner and integrated, so the projectile
travels exactly `speed·dt/1000` straight at the owner; all its discrete
state is preserved. -/
lemma boomerang_step (mapW mapH : ℚ) (o : ℚ × ℚ) (dist dt : ℚ) (p : Projectile)
    (hrem : p.removed = false) (hexp : ¬p.duration ≤ p.age + dt)
    (hty : p.ptype = PType.projectile) (hpat : p.pattern = PPattern.boomerang)
    (hret : p.returning = true) (hdpos : 0 < dist) (hd30 : ¬dist < 30) :
    (updateProjectileTick mapW mapH (some o) dist dt p).x
        = p.x + (o.1 - p.x) / dist * p.speed * (dt / 1000) ∧
      (updateProjectileTick mapW mapH (some o) dist dt p).y
        = p.y + (o.2 - p.y) / dist * p.speed * (dt / 1000) ∧
      (updateProjectileTick mapW mapH (some o) dist dt p).returning = true ∧
      (updateProjectileTick mapW mapH (some o) dist dt p).removed = false ∧
      (updateProjectileTick mapW mapH (some o) dist dt p).ptype = PType.projectile ∧
      (updateProjectileTick mapW mapH (some o) dist dt p).pattern = PPattern.boomerang ∧
      (updateProjectileTick mapW mapH (some o) dist dt p).speed = p.speed := by
  obtain ⟨px, py, pdx, pdy, psp, pdmg, ppi, ppc, pdur, page, psz, pw, ph, pty, ppat,
    phits, pgrav, prt, pretg, pkb, ptr, plt, ptgt, pld, pbc, pec, prm⟩ := p
  simp only at hrem hexp hty hpat hret
  subst hrem hty hpat hret
  simp [updateProjectileTick, moveBoomerang, hexp, hdpos, hd30]

/-- Claim C9: a returning boomerang with a stationary owner reaches either
the 30-unit owner-proximity snap (which expires it) or its age expiry
within `n` ticks whenever its distance to the owner is below
`30 + n·(speed·dt/1000)` — a bound proportional to distance ÷ speed.  It
never orbits forever (hypotheses: the per-tick travel `speed·dt/1000` is
positive and at most the 30-unit snap radius, amply true of the source's
boomerang weapons at the 60 Hz fixed step). -/
theorem boomerang_return_terminates (mapW mapH : ℚ) (o : ℚ × ℚ) (dt sp : ℚ)
    (traj : ℕ → Projectile) (dists : ℕ → ℚ)
    (hstep : ∀ i, traj (i + 1) = updateProjectileTick mapW mapH (some o) (dists i) dt (traj i))
    (hvalid : ∀ i, 0 ≤ dists i ∧ dists i * dists i
      = (o.1 - (traj i).x) * (o.1 - (traj i).x) + (o.2 - (traj i).y) * (o.2 - (traj i).y))
    (hty : (traj 0).ptype = PType.projectile) (hpat : (traj 0).pattern = PPattern.boomerang)
    (hret : (traj 0).returning = true) (hrem : (traj 0).removed = false)
    (hsp : (traj 0).speed = sp)
    (hstep_pos : 0 < sp * (dt / 1000)) (hstep_le : sp * (dt / 1000) ≤ 30)
    (n : ℕ) (hn : dists 0 < 30 + n * (sp * (dt / 1000))) :
    ∃ i ≤ n, dists i < 30 ∨ (traj i).duration ≤ (traj i).age := by
  induction n generalizing traj dists with
  | zero =>
    refine ⟨0, le_refl 0, Or.inl ?_⟩
    simpa using hn
  | succ n ih =>
    by_cases hd0 : dists 0 < 30
    · exact ⟨0, Nat.zero_le _, Or.inl hd0⟩
    · by_cases hexp : (traj 0).duration ≤ (traj 0).age + dt
      · refine ⟨1, by omega, Or.inr ?_⟩
        rw [hstep 0, updateProjectileTick]
        simp only [hrem, Bool.false_eq_true, if_false]
        rw [if_pos (by simpa using hexp)]
        simpa using hexp
      · have hdpos : 0 < dists 0 := lt_of_lt_of_le hstep_pos (by linarith [not_lt.mp hd0])
        have hb := boomerang_step mapW mapH o (dists 0) dt (traj 0) hrem hexp hty hpat hret
          hdpos hd0
        have hstep0 := hstep 0
        have hx : (traj 1).x = (traj 0).x + (o.1 - (traj 0).x) / dists 0 * sp * (dt / 1000) := by
          rw [hstep0, hb.1, hsp]
        have hy : (traj 1).y = (traj 0).y + (o.2 - (traj 0).y) / dists 0 * sp * (dt / 1000) := by
          rw [hstep0, hb.2.1, hsp]
        have hd1 : dists 1 = dists 0 - sp * (dt / 1000) := by
          have hv0 := hvalid 0
          have hv1 := hvalid 1
          have hne : dists 0 ≠ 0 := ne_of_gt hdpos
          have hsq : dists 1 * dists 1
              = (dists 0 - sp * (dt / 1000)) * (dists 0 - sp * (dt / 1000)) := by
            rw [hv1.2, hx, hy]
            have e1 : o.1 - ((traj 0).x + (o.1 - (traj 0).x) / dists 0 * sp * (dt / 1000))
                = (o.1 - (traj 0).x)
                  - (o.1 - (traj 0).x) / dists 0 * (sp * (dt / 1000)) := by ring
            have e2 : o.2 - ((traj 0).y + (o.2 - (traj 0).y) / dists 0 * sp * (dt / 1000))
                = (o.2 - (traj 0).y)
                  - (o.2 - (traj 0).y) / dists 0 * (sp * (dt / 1000)) := by ring
            rw [e1, e2]
            exact dist_shrink _ _ _ _ hne hv0.2
          have hfac : (dists 1 - (dists 0 - sp * (dt / 1000)))
              * (dists 1 + (dists 0 - sp * (dt / 1000))) = 0 := by
            linear_combination hsq
          have hnn : 0 ≤ dists 0 - sp * (dt / 1000) := by
            linarith [not_lt.mp hd0, hstep_le]
          rcases mul_eq_zero.mp hfac with hz | hz
          · linarith [sub_eq_zero.mp hz]
          · have h1 := (hvalid 1).1
            linarith
        have hn1 : dists 1 < 30 + n * (sp * (dt / 1000)) := by
          rw [hd1]
          push_cast [Nat.cast_succ] at hn
          linarith
        have s1 : (traj (0 + 1)).ptype = PType.projectile := by
          rw [hstep0]
          exact hb.2.2.2.2.1
        have s2 : (traj (0 + 1)).pattern = PPattern.boomerang := by
          rw [hstep0]
          exact hb.2.2.2.2.2.1
        have s3 : (traj (0 + 1)).returning = true := by
          rw [hstep0]
          exact hb.2.2.1
        have s4 : (traj (0 + 1)).removed = false := by
          rw [hstep0]
          exact hb.2.2.2.1
        have s5 : (traj (0 + 1)).speed = sp := by
          rw [hstep0, hb.2.2.2.2.2.2, hsp]
        have hres := ih (fun i => traj (i + 1)) (fun i => dists (i + 1))
          (fun i => hstep (i + 1)) (fun i => hvalid (i + 1)) s1 s2 s3 s4 s5 hn1
        obtain ⟨i, hi, hcase⟩ := hres
        exact ⟨i + 1, by omega, hcase⟩

lemma updateTick_removed (mapW mapH : ℚ) (ownerPos : Option (ℚ × ℚ)) (dist dt : ℚ)
    (p : Projectile) (h : p.removed = true) :
    updateProjectileTick mapW mapH ownerPos dist dt p = p := by
  rw [updateProjectileTick, if_pos h]

/-- Returning boomerang used by the C9 witness: 20 units from its owner at
the origin, inside the snap radius already. -/
def c9Proj : Projectile :=
  { x := 20, y := 0, dx := -1, dy := 0, speed := 10, damage := 10, pierce := 1,
    pierceCount := 0, duration := 1000, age := 0, size := 8, width := 0, height := 0,
    ptype := PType.projectile, pattern := PPattern.boomerang, hitEnemies := [],
    gravity := 0, returnTime := 500, returning := true, knockback := 5, tickRate := 0,
    lastTick := 0, target := none, landed := false, bounceCount := 0,
    expireCalls := 0, removed := false }

def c9Traj : ℕ → Projectile
  | 0 => c9Proj
  | n + 1 => updateProjectileTick 4000 4000 (some (0, 0)) 20 1000 (c9Traj n)

/-- `c9Proj` after its first tick: expired by age and removed. -/
def c9Expired : Projectile :=
  { c9Proj with age := 1000, expireCalls := 1, removed := true }

lemma c9Traj_succ (k : ℕ) : c9Traj (k + 1) = c9Expired := by
  induction k with
  | zero =>
    show updateProjectileTick 4000 4000 (some (0, 0)) 20 1000 c9Proj = c9Expired
    norm_num [updateProjectileTick, c9Proj, c9Expired, Projectile.mk.injEq]
  | succ k ih =>
    show updateProjectileTick 4000 4000 (some (0, 0)) 20 1000 (c9Traj (k + 1)) = c9Expired
    rw [ih]
    exact updateTick_removed 4000 4000 (some (0, 0)) 20 1000 c9Expired rfl

/-- Witness for C9: the concrete returning boomerang 20 units from its
stationary owner satisfies the termination bound at `n = 0` — it is already
inside the snap radius. -/
theorem boomerang_return_terminates_witness :
    ∃ i ≤ 0, (fun _ : ℕ => (20 : ℚ)) i < 30 ∨ (c9Traj i).duration ≤ (c9Traj i).age := by
  refine boomerang_return_terminates 4000 4000 (0, 0) 1000 10 c9Traj (fun _ => 20)
    (fun i => rfl) (fun i => ⟨by norm_num, ?_⟩) rfl rfl rfl rfl rfl
    (by norm_num) (by norm_num) 0 (by norm_num)
  cases i with
  | zero =>
    rw [show c9Traj 0 = c9Proj from rfl]
    norm_num [c9Proj]
  | succ k =>
    rw [c9Traj_succ k]
    norm_num [c9Expired, c9Proj]

/-- Beam-activation state of `VoidBeam` (src/js/weapons/voidBeam.js): the
active flag, the remaining timer, and the per-activation hit-set created by
`fire()`.  The beam direction `(cos beamAngle, sin beamAngle)` is passed to
the update functions as an explicit unit vector `(bx, by)`. -/
structure BeamState where
  beamActive : Bool
  beamTimer : ℚ
  hitEnemies : List ℕ
  deriving Repr, DecidableEq

/-- The in-beam test of `damageEnemiesInBeam`: positive projection onto the
beam direction below the 600-unit beam length, and perpendicular distance
(cross-product magnitude) below `30·area + enemy.radius`. -/
def inBeam (px py bx byy area : ℚ) (e : Enemy) : Prop :=
  0 < (e.x - px) * bx + (e.y - py) * byy ∧
    (e.x - px) * bx + (e.y - py) * byy < 600 ∧
    |(e.x - px) * byy - (e.y - py) * bx| < 30 * area + e.radius

instance (px py bx byy area : ℚ) (e : Enemy) : Decidable (inBeam px py bx byy area e) := by
  unfold inBeam
  infer_instance

/-- The enemy loop of `damageEnemiesInBeam`: every enemy in the beam whose
id is not yet in the hit-set takes one `takeDamage(this.damage)` call and
is added to the hit-set.  Returns the updated enemies (in order), the
updated hit-set, and the list of damaged ids (the damage events). -/
def beamDamageFold (damage curse px py bx byy area : ℚ) :
    List Enemy → List ℕ → List Enemy × List ℕ × List ℕ
  | [], hit => ([], hit, [])
  | e :: rest, hit =>
    if inBeam px py bx byy area e ∧ e.id ∉ hit then
      let r := beamDamageFold damage curse px py bx byy area rest (hit ++ [e.id])
      (damageEnemy curse e damage :: r.1, r.2.1, e.id :: r.2.2)
    else
      let r := beamDamageFold damage curse px py bx byy area rest hit
      (e :: r.1, r.2.1, r.2.2)

/-- One `VoidBeam.update(dt)` during an activation: decrement the timer,
run `damageEnemiesInBeam`, then deactivate once the timer is `<= 0`
(damage still runs on that final tick).  An inactive beam does nothing. -/
def voidBeamTick (dt damage curse px py bx byy area : ℚ) (st : BeamState)
    (es : List Enemy) : BeamState × List Enemy × List ℕ :=
  if st.beamActive = true then
    let r := beamDamageFold damage curse px py bx byy area es st.hitEnemies
    ({ beamActive := if st.beamTimer - dt ≤ 0 then false else st.beamActive,
       beamTimer := st.beamTimer - dt, hitEnemies := r.2.1 }, r.1, r.2.2)
  else (st, es, [])

/-- `n` consecutive beam update ticks, accumulating the damage events. -/
def voidBeamRun (dt damage curse px py bx byy area : ℚ) :
    ℕ → BeamState → List Enemy → BeamState × List Enemy × List ℕ
  | 0, st, es => (st, es, [])
  | n + 1, st, es =>
    let r := voidBeamTick dt damage curse px py bx byy area st es
    let r' := voidBeamRun dt damage curse px py bx byy area n r.1 r.2.1
    (r'.1, r'.2.1, r.2.2 ++ r'.2.2)

lemma beamDamageFold_spec (damage curse px py bx byy area : ℚ) :
    ∀ (es : List Enemy) (hit : List ℕ),
      (beamDamageFold damage curse px py bx byy area es hit).2.1
          = hit ++ (beamDamageFold damage curse px py bx byy area es hit).2.2 ∧
        (beamDamageFold damage curse px py bx byy area es hit).2.2.Nodup ∧
        (∀ id ∈ (beamDamageFold damage curse px py bx byy area es hit).2.2, id ∉ hit) := by
  intro es
  induction es with
  | nil => exact fun hit => ⟨by simp [beamDamageFold], by simp [beamDamageFold], by simp [beamDamageFold]⟩
  | cons e rest ih =>
    intro hit
    rw [beamDamageFold]
    split_ifs with h
    · obtain ⟨h1, h2, h3⟩ := ih (hit ++ [e.id])
      refine ⟨?_, ?_, ?_⟩
      · simpa [List.append_assoc] using h1
      · refine List.Nodup.cons ?_ h2
        intro hmem
        exact absurd (by simp) (h3 e.id hmem)
      · intro id hid
        rcases List.mem_cons.mp hid with rfl | hid'
        · exact h.2
        · intro hin
          exact h3 id hid' (by simp [hin])
    · exact ih hit

/-- Hit-set growth across one beam tick: the new hit-set is the old one
plus this tick's events, which are fresh and mutually distinct. -/
lemma voidBeamTick_spec (dt damage curse px py bx byy area : ℚ) (st : BeamState)
    (es : List Enemy) :
    (voidBeamTick dt damage curse px py bx byy area st es).1.hitEnemies
        = st.hitEnemies ++ (voidBeamTick dt damage curse px py bx byy area st es).2.2 ∧
      (voidBeamTick dt damage curse px py bx byy area st es).2.2.Nodup ∧
      ∀ id ∈ (voidBeamTick dt damage curse px py bx byy area st es).2.2,
        id ∉ st.hitEnemies := by
  have h := beamDamageFold_spec damage curse px py bx byy area es st.hitEnemies
  rw [voidBeamTick]
  split_ifs with ha hb
  · exact ⟨h.1, h.2.1, h.2.2⟩
  · exact ⟨h.1, h.2.1, h.2.2⟩
  · simp

/-- Across a whole activation the events remain mutually distinct and the
final hit-set is the initial one plus all events in order. -/
lemma voidBeamRun_spec (dt damage curse px py bx byy area : ℚ) :
    ∀ (n : ℕ) (st : BeamState) (es : List Enemy),
      (voidBeamRun dt damage curse px py bx byy area n st es).1.hitEnemies
          = st.hitEnemies ++ (voidBeamRun dt damage curse px py bx byy area n st es).2.2 ∧
        (voidBeamRun dt damage curse px py bx byy area n st es).2.2.Nodup ∧
        ∀ id ∈ (voidBeamRun dt damage curse px py bx byy area n st es).2.2,
          id ∉ st.hitEnemies := by
  intro n
  induction n with
  | zero => exact fun st es => ⟨by simp [voidBeamRun], by simp [voidBeamRun], by simp [voidBeamRun]⟩
  | succ n ih =>
    intro st es
    rw [voidBeamRun]
    have ht := voidBeamTick_spec dt damage curse px py bx byy area st es
    obtain ⟨ih1, ih2, ih3⟩ := ih (voidBeamTick dt damage curse px py bx byy area st es).1
      (voidBeamTick dt damage curse px py bx byy area st es).2.1
    refine ⟨?_, ?_, ?_⟩
    · rw [ih1, ht.1]
      simp [List.append_assoc]
    · rw [List.nodup_append]
      refine ⟨ht.2.1, ih2, ?_⟩
      intro id hid hid'
      have := ih3 id hid'
      rw [ht.1] at this
      exact this (by simp [hid])
    · intro id hid hin
      rcases List.mem_append.mp hid with h1 | h2
      · exact ht.2.2 id h1 hin
      · have := ih3 id h2
        rw [ht.1] at this
        exact this (by simp [hin])

/-- An enemy inside the beam always ends the pass in the hit-set. -/
lemma beamDamageFold_hits (damage curse px py bx byy area : ℚ) :
    ∀ (es : List Enemy) (hit : List ℕ) (e : Enemy), e ∈ es →
      inBeam px py bx byy area e →
      e.id ∈ (beamDamageFold damage curse px py bx byy area es hit).2.1 := by
  intro es
  induction es with
  | nil =>
    intro hit e he hin
    exact absurd he (List.not_mem_nil e)
  | cons a rest ih =>
    intro hit e he hin
    rw [beamDamageFold]
    split_ifs with h
    · have hspec := beamDamageFold_spec damage curse px py bx byy area rest (hit ++ [a.id])
      rcases List.mem_cons.mp he with rfl | he'
      · rw [hspec.1]
        simp
      · exact ih (hit ++ [a.id]) e he' hin
    · have hspec := beamDamageFold_spec damage curse px py bx byy area rest hit
      rcases List.mem_cons.mp he with rfl | he'
      · have hid : e.id ∈ hit := by
          by_contra hno
          exact h ⟨hin, hno⟩
        rw [hspec.1]
        simp [hid]
      · exact ih hit e he' hin

/-- Claim C5: during a single beam activation every enemy id is damaged at
most once across all ticks, and an enemy standing inside the beam for the
whole activation (its position never changes; the beam damage moves nobody)
is damaged exactly once over the `n >= 1` ticks of the activation — the
per-activation hit-set created at `fire()` suppresses all repeats. -/
theorem voidBeam_damages_once (dt damage curse px py bx byy area duration : ℚ)
    (es : List Enemy) (e : Enemy) (n : ℕ) (hn : 1 ≤ n) (he : e ∈ es)
    (hin : inBeam px py bx byy area e) :
    List.count e.id (voidBeamRun dt damage curse px py bx byy area n
        { beamActive := true, beamTimer := duration, hitEnemies := [] } es).2.2 = 1 ∧
      ∀ id, List.count id (voidBeamRun dt damage curse px py bx byy area n
        { beamActive := true, beamTimer := duration, hitEnemies := [] } es).2.2 ≤ 1 := by
  have hrun := voidBeamRun_spec dt damage curse px py bx byy area n
    { beamActive := true, beamTimer := duration, hitEnemies := [] } es
  have hle : ∀ id, List.count id (voidBeamRun dt damage curse px py bx byy area n
      { beamActive := true, beamTimer := duration, hitEnemies := [] } es).2.2 ≤ 1 :=
    fun id => List.nodup_iff_count_le_one.mp hrun.2.1 id
  refine ⟨?_, hle⟩
  obtain ⟨m, rfl⟩ : ∃ m, n = m + 1 := ⟨n - 1, by omega⟩
  have hmem : e.id ∈ (voidBeamRun dt damage curse px py bx byy area (m + 1)
      { beamActive := true, beamTimer := duration, hitEnemies := [] } es).2.2 := by
    rw [voidBeamRun]
    refine List.mem_append.mpr (Or.inl ?_)
    rw [voidBeamTick, if_pos rfl]
    have hh := beamDamageFold_hits damage curse px py bx byy area es
      ({ beamActive := true, beamTimer := duration, hitEnemies := [] } : BeamState).hitEnemies
      e he hin
    have hspec := beamDamageFold_spec damage curse px py bx byy area es
      ({ beamActive := true, beamTimer := duration, hitEnemies := [] } : BeamState).hitEnemies
    rw [hspec.1] at hh
    simpa using hh
  have h1 := List.count_pos_iff.mpr hmem
  have h2 := hle e.id
  omega

/-- Enemy used by the C5 witness: squarely inside a +x beam of area 1. -/
def beamEnemy : Enemy :=
  { id := 5, x := 100, y := 0, radius := 10, hp := 200, maxHp := 200, dead := false,
    knockbackResist := 0, knockbackX := 0, knockbackY := 0,
    resurrect := false, resurrected := false }

/-- Witness for C5: over a concrete 3-tick activation the in-beam enemy is
damaged exactly once. -/
theorem voidBeam_damages_once_witness :
    List.count beamEnemy.id (voidBeamRun 16 25 1 0 0 1 0 1 3
        { beamActive := true, beamTimer := 1000, hitEnemies := [] } [beamEnemy]).2.2 = 1 := by
  refine (voidBeam_damages_once 16 25 1 0 0 1 0 1 1000 [beamEnemy] beamEnemy 3
    (by norm_num) (by simp) ?_).1
  rw [inBeam]
  norm_num [beamEnemy]

/-- `EnemyManager.getNearestEnemy`: linear scan over live enemies keeping
the first strictly-closer one (squared distances, ties keep the earlier). -/
def getNearestEnemy (es : List Enemy) (x y : ℚ) : Option Enemy :=
  es.foldl (fun nearest e =>
    if e.dead = true then nearest
    else
      match nearest with
      | none => some e
      | some b =>
        if (e.x - x) * (e.x - x) + (e.y - y) * (e.y - y)
            < (b.x - x) * (b.x - x) + (b.y - y) * (b.y - y) then some e
        else nearest) none

/-- `currentTarget.takeDamage(actualDamage)` inside the chain loop: the
source mutates the one targeted object; here the enemy with that id is
replaced (ids are unique, `++enemyIdCounter` in the source). -/
def chainDamage (curse : ℚ) (es : List Enemy) (targetId : ℕ) (amt : ℚ) : List Enemy :=
  es.map (fun e => if e.id = targetId then damageEnemy curse e amt else e)

/-- The chain loop of `ChainLightning.fire`
(src/js/weapons/chainLightning.js): up to `fuel` hops; stop on a missing or
already-hit target; otherwise damage the target with
`damage × 0.85^hopIndex`, add its id to the hit-set, and jump to the FIRST
enemy of the spatial query around the target within `chainRange` whose id
is not yet hit and which is not dead.  The spatial hash is rebuilt from the
current enemy list: positions are unchanged during the chain, so the
buckets and their order agree with the hash built earlier in the tick,
while `dead` flags are read live exactly as the source's object references
do.  Events record each `(target snapshot, damage amount)`. -/
def chainLoop (damage curse chainRange : ℚ) :
    ℕ → ℕ → Option Enemy → List ℕ → List Enemy → List (Enemy × ℚ) →
      List Enemy × List (Enemy × ℚ)
  | 0, _, _, _, es, evs => (es, evs)
  | _ + 1, _, none, _, es, evs => (es, evs)
  | fuel + 1, i, some t, hit, es, evs =>
    if t.id ∈ hit then (es, evs)
    else
      let amt := damage * (85 / 100) ^ i
      let es' := chainDamage curse es t.id amt
      let hit' := hit ++ [t.id]
      let nearby := getEnemiesNear (buildSpatialHash es') t.x t.y chainRange
      let next := nearby.find? (fun e => decide (e.id ∉ hit') && !e.dead)
      chainLoop damage curse chainRange fuel (i + 1) next hit' es' (evs ++ [(t, amt)])

/-- One chain-lightning activation chain (the per-projectile body of
`ChainLightning.fire`): start from the enemy nearest the player, then run
the chain loop with an empty hit-set. -/
def chainFire (px py damage curse chainRange : ℚ) (chainCount : ℕ) (es : List Enemy) :
    List Enemy × List (Enemy × ℚ) :=
  match getNearestEnemy es px py with
  | none => (es, [])
  | some t => chainLoop damage curse chainRange chainCount 0 (some t) [] es []

/-- Soundness half of the spatial query, independent of the hash contents:
everything returned is live and within the radius of the query point. -/
lemma getEnemiesNear_sound {hash : ℤ × ℤ → List Enemy} {x y radius : ℚ} {e : Enemy}
    (h : e ∈ getEnemiesNear hash x y radius) :
    e.dead = false ∧ (e.x - x) * (e.x - x) + (e.y - y) * (e.y - y) ≤ radius * radius := by
  simp only [getEnemiesNear] at h
  rw [show ∀ L : List (List Enemy), (e ∈ L.flatten ↔ ∃ l ∈ L, e ∈ l) from
    fun L => List.mem_flatten] at h
  simp only [List.mem_map] at h
  obtain ⟨row, ⟨dx, -, rfl⟩, hrow⟩ := h
  rcases List.mem_flatten.mp hrow with ⟨bucket, hbucket, hemem⟩
  rcases List.mem_map.mp hbucket with ⟨dy, -, rfl⟩
  rcases List.mem_filter.mp hemem with ⟨-, hcond⟩
  simpa only [Bool.and_eq_true, Bool.not_eq_true', decide_eq_true_eq] using hcond

/-- Full bookkeeping of the chain loop: the events appended beyond `evs`
are at most `fuel` many, target pairwise-distinct ids none of which was in
the entry hit-set, carry the geometric damage falloff indexed from `i`,
each hop after the first lands on a live enemy within `chainRange` of the
previous hop's target, and the first appended event (if any) targets the
entry target. -/
lemma chainLoop_none (damage curse chainRange : ℚ) (fuel i : ℕ) (hit : List ℕ)
    (es : List Enemy) (evs : List (Enemy × ℚ)) :
    chainLoop damage curse chainRange fuel i none hit es evs = (es, evs) := by
  cases fuel <;> rfl

lemma chainLoop_spec (damage curse chainRange : ℚ) :
    ∀ (fuel i : ℕ) (cur : Option Enemy) (hit : List ℕ) (es : List Enemy)
      (evs : List (Enemy × ℚ)),
      ∃ new : List (Enemy × ℚ),
        (chainLoop damage curse chainRange fuel i cur hit es evs).2 = evs ++ new ∧
          new.length ≤ fuel ∧
          (new.map (fun ev => ev.1.id)).Nodup ∧
          (∀ id ∈ new.map (fun ev => ev.1.id), id ∉ hit) ∧
          (∀ k (hk : k < new.length), (new.get ⟨k, hk⟩).2 = damage * (85 / 100) ^ (i + k)) ∧
          (∀ k (hk : k + 1 < new.length),
            ((new.get ⟨k + 1, hk⟩).1.x - (new.get ⟨k, Nat.lt_of_succ_lt hk⟩).1.x)
                * ((new.get ⟨k + 1, hk⟩).1.x - (new.get ⟨k, Nat.lt_of_succ_lt hk⟩).1.x)
              + ((new.get ⟨k + 1, hk⟩).1.y - (new.get ⟨k, Nat.lt_of_succ_lt hk⟩).1.y)
                * ((new.get ⟨k + 1, hk⟩).1.y - (new.get ⟨k, Nat.lt_of_succ_lt hk⟩).1.y)
              ≤ chainRange * chainRange ∧
            (new.get ⟨k + 1, hk⟩).1.dead = false) ∧
          (∀ t, cur = some t → new = [] ∨
            ∃ rest, new = (t, damage * (85 / 100) ^ i) :: rest) := by
  intro fuel
  induction fuel with
  | zero =>
    intro i cur hit es evs
    exact ⟨[], by simp [chainLoop], by simp, by simp, by simp, by simp, by simp,
      fun t _ => Or.inl rfl⟩
  | succ fuel ih =>
    intro i cur hit es evs
    match cur with
    | none =>
      exact ⟨[], by simp [chainLoop], by simp, by simp, by simp, by simp, by simp,
        fun t ht => by cases ht⟩
    | some t =>
      rw [chainLoop]
      split_ifs with hmem
      · exact ⟨[], by simp, by simp, by simp, by simp, by simp, by simp,
          fun t' _ => Or.inl rfl⟩
      · obtain ⟨new', h1, h2, h3, h4, h5, h6, h7⟩ := ih (i + 1)
          ((getEnemiesNear (buildSpatialHash (chainDamage curse es t.id
              (damage * (85 / 100) ^ i))) t.x t.y chainRange).find?
            (fun e => decide (e.id ∉ hit ++ [t.id]) && !e.dead))
          (hit ++ [t.id]) (chainDamage curse es t.id (damage * (85 / 100) ^ i))
          (evs ++ [(t, damage * (85 / 100) ^ i)])
        refine ⟨(t, damage * (85 / 100) ^ i) :: new', ?_, ?_, ?_, ?_, ?_, ?_, ?_⟩
        · rw [h1]
          simp
        · simpa using Nat.succ_le_succ h2
        · rw [List.map_cons]
          refine List.Nodup.cons ?_ h3
          intro hmem'
          have := h4 t.id hmem'
          simp at this
        · intro id hid
          rw [List.map_cons, List.mem_cons] at hid
          rcases hid with rfl | hid'
          · exact hmem
          · intro hin
            exact h4 id hid' (by simp [hin])
        · intro k hk
          match k with
          | 0 => simp
          | k + 1 =>
            have hk' : k < new'.length := by simpa using Nat.lt_of_succ_lt_succ hk
            have := h5 k hk'
            rw [List.get_cons_succ]
            rw [this, show i + 1 + k = i + (k + 1) from by omega]
        · intro k hk
          match k with
          | 0 =>
            have hlen : 0 < new'.length := by simpa using Nat.lt_of_succ_lt_succ hk
            have hne : new' ≠ [] := List.ne_nil_of_length_pos hlen
            rcases hfind : (getEnemiesNear (buildSpatialHash (chainDamage curse es t.id
                (damage * (85 / 100) ^ i))) t.x t.y chainRange).find?
                (fun e => decide (e.id ∉ hit ++ [t.id]) && !e.dead) with - | t'
            · exfalso
              simp only [hfind, chainLoop_none] at h1
              simp at h1
              exact hne h1
            · rcases h7 t' hfind with hnil | ⟨rest, hrest⟩
              · exact absurd hnil hne
              · subst hrest
                have ht' : t' ∈ getEnemiesNear (buildSpatialHash (chainDamage curse es t.id
                    (damage * (85 / 100) ^ i))) t.x t.y chainRange :=
                  List.mem_of_find?_eq_some hfind
                have hsound := getEnemiesNear_sound ht'
                exact ⟨by simpa using hsound.2, by simpa using hsound.1⟩
          | k + 1 =>
            have hk' : k + 1 < new'.length := by simpa using Nat.lt_of_succ_lt_succ hk
            have := h6 k hk'
            simpa [List.get_cons_succ] using this
        · intro t' ht'
          right
          cases ht'
          exact ⟨new', rfl⟩

/-- Claim C4 (amended): each chain-lightning activation starts from the
enemy nearest the player and repeatedly jumps to the FIRST not-yet-hit live
enemy of the spatial-query result within the fixed chain range (query cell
order — not necessarily the nearest), applying `damage × 0.85^hopIndex` on
hop `i`; within one activation no enemy id is ever damaged twice, and the
chain stops when no valid next target exists or the hop budget is
exhausted. -/
theorem chainFire_spec (px py damage curse chainRange : ℚ) (chainCount : ℕ)
    (es : List Enemy) :
    ((chainFire px py damage curse chainRange chainCount es).2.map
        (fun ev => ev.1.id)).Nodup ∧
      (chainFire px py damage curse chainRange chainCount es).2.length ≤ chainCount ∧
      (∀ k (hk : k < (chainFire px py damage curse chainRange chainCount es).2.length),
        ((chainFire px py damage curse chainRange chainCount es).2.get ⟨k, hk⟩).2
          = damage * (85 / 100) ^ k) ∧
      (∀ k (hk : k + 1 < (chainFire px py damage curse chainRange chainCount es).2.length),
        (((chainFire px py damage curse chainRange chainCount es).2.get ⟨k + 1, hk⟩).1.x
              - ((chainFire px py damage curse chainRange chainCount es).2.get
                  ⟨k, Nat.lt_of_succ_lt hk⟩).1.x)
            * (((chainFire px py damage curse chainRange chainCount es).2.get ⟨k + 1, hk⟩).1.x
              - ((chainFire px py damage curse chainRange chainCount es).2.get
                  ⟨k, Nat.lt_of_succ_lt hk⟩).1.x)
          + (((chainFire px py damage curse chainRange chainCount es).2.get ⟨k + 1, hk⟩).1.y
              - ((chainFire px py damage curse chainRange chainCount es).2.get
                  ⟨k, Nat.lt_of_succ_lt hk⟩).1.y)
            * (((chainFire px py damage curse chainRange chainCount es).2.get ⟨k + 1, hk⟩).1.y
              - ((chainFire px py damage curse chainRange chainCount es).2.get
                  ⟨k, Nat.lt_of_succ_lt hk⟩).1.y)
          ≤ chainRange * chainRange) ∧
      (∀ t, getNearestEnemy es px py = some t →
        (chainFire px py damage curse chainRange chainCount es).2 = [] ∨
          ∃ rest, (chainFire px py damage curse chainRange chainCount es).2
            = (t, damage * (85 / 100) ^ 0) :: rest) ∧
      (getNearestEnemy es px py = none →
        (chainFire px py damage curse chainRange chainCount es).2 = []) := by
  rcases hn : getNearestEnemy es px py with - | t
  · have hfire : (chainFire px py damage curse chainRange chainCount es).2 = [] := by
      rw [chainFire, hn]
    rw [hfire]
    refine ⟨by simp, by simp, ?_, ?_, ?_, fun _ => rfl⟩
    · intro k hk
      exact absurd hk (by simp)
    · intro k hk
      exact absurd hk (by simp)
    · intro t ht
      exact Or.inl rfl
  · obtain ⟨new, h1, h2, h3, h4, h5, h6, h7⟩ :=
      chainLoop_spec damage curse chainRange chainCount 0 (some t) [] es []
    have hfire : (chainFire px py damage curse chainRange chainCount es).2 = new := by
      rw [chainFire, hn]
      simpa using h1
    rw [hfire]
    refine ⟨h3, h2, ?_, fun k hk => (h6 k hk).1, ?_, ?_⟩
    · intro k hk
      simpa using h5 k hk
    · intro t' ht'
      injection ht' with heq
      subst heq
      exact h7 t rfl
    · intro hcontra
      exact absurd hcontra (by simp)

/-- First enemy of the C4 counterexample: nearest to the player. -/
def cE1 : Enemy :=
  { id := 1, x := 10, y := 0, radius := 10, hp := 100, maxHp := 100, dead := false,
    knockbackResist := 0, knockbackX := 0, knockbackY := 0,
    resurrect := false, resurrected := false }

/-- Second enemy of the C4 counterexample: only 5 units from `cE1`. -/
def cE2 : Enemy :=
  { id := 2, x := 15, y := 0, radius := 10, hp := 100, maxHp := 100, dead := false,
    knockbackResist := 0, knockbackX := 0, knockbackY := 0,
    resurrect := false, resurrected := false }

/-- Third enemy of the C4 counterexample: 260 units from `cE1`, but hashed
into an earlier spatial cell than `cE2`. -/
def cE3 : Enemy :=
  { id := 3, x := -250, y := 0, radius := 10, hp := 100, maxHp := 100, dead := false,
    knockbackResist := 0, knockbackX := 0, knockbackY := 0,
    resurrect := false, resurrected := false }

lemma intRange_pm3 : intRange (-3) 3 = [-3, -2, -1, 0, 1, 2, 3] := by decide

/-- Counterexample to C4 as stated: the chain's second hop goes to `cE3`
(id 3, first in spatial-query cell order) although `cE2` (id 2) is a live,
not-yet-hit enemy within chain range that is strictly closer to the first
target `cE1` — the source jumps to the first enemy of the query result, not
the nearest. -/
theorem chain_second_hop_not_nearest :
    ((chainFire 0 0 10 1 300 3 [cE1, cE2, cE3]).2.map (fun ev => ev.1.id)) = [1, 3, 2] ∧
      cE2.dead = false ∧
      (cE2.x - cE1.x) * (cE2.x - cE1.x) + (cE2.y - cE1.y) * (cE2.y - cE1.y) ≤ 300 * 300 ∧
      (cE2.x - cE1.x) * (cE2.x - cE1.x) + (cE2.y - cE1.y) * (cE2.y - cE1.y)
        < (cE3.x - cE1.x) * (cE3.x - cE1.x) + (cE3.y - cE1.y) * (cE3.y - cE1.y) := by
  refine ⟨?_, rfl, by norm_num [cE1, cE2], by norm_num [cE1, cE2, cE3]⟩
  norm_num [chainFire, chainLoop, chainDamage, damageEnemy, killEnemy, getNearestEnemy,
    getEnemiesNear, buildSpatialHash, cellKey, cellSize, intRange_pm3, List.filter_cons,
    List.find?, cE1, cE2, cE3]

/-- Witness for the amended C4 at the concrete three-enemy configuration:
no id repeats among the damage events and the hop budget bounds them. -/
theorem chainFire_spec_witness :
    ((chainFire 0 0 10 1 300 3 [cE1, cE2, cE3]).2.map (fun ev => ev.1.id)).Nodup ∧
      (chainFire 0 0 10 1 300 3 [cE1, cE2, cE3]).2.length ≤ 3 := by
  have h := chainFire_spec 0 0 10 1 300 3 [cE1, cE2, cE3]
  exact ⟨h.1, h.2.1⟩

end ArcaneSurvivors
